import Mathlib

/-!
Verification development for the data-transformation core of the
eval-analyzer-website repository.

Embedded source files:
* `src/features/transform.ts` — dataset-key normalization, category
  extraction, the subject classifier `categorizeTest`, the normalizer
  `flattenDatasetResults`, `groupByCategory`, `buildPivotTable`.
* `src/features/discover.ts` — `calculateDeltas`, `calculateCategoryStats`
  (this file contains its own copy of `flattenDatasetResults`,
  `groupByCategory` and the label construction that is textually identical
  to the one in `transform.ts`, except that its private `categorizeTest`
  has a smaller rule table; the shared functions are defined once below,
  the divergent classifier lives in namespace `Discover`).
* `src/charts/CategoryDashboard.tsx` — the category aggregator
  (the `categoryStats` useMemo).

Modelling conventions:
* JavaScript numbers are modelled as `Option ℚ`; `none` stands for `NaN`
  (and for `undefined` in the places where the code can store an undefined
  number, e.g. the result of `d3.mean` on an all-NaN array).  `typeof NaN`
  is `"number"`, which the model reflects by `Json.num none` being a
  `num` constructor.
* JSON-like runtime values are the inductive type `Json`.  JavaScript
  property access `x.f` is `getField`; `Object.entries` is `objEntries`
  (insertion order for objects, index order for arrays, character order
  for strings, empty for primitives, as in JavaScript).
* JavaScript `Map` objects and plain objects used as dictionaries are
  association lists with the JavaScript insertion-order/upsert semantics
  (`mapSet` updates an existing key in place and appends a fresh key).
* String primitives (`includes`, `split`, `startsWith`, `endsWith`,
  `toLowerCase`, slicing) are implemented over `List Char` by structural
  recursion so that every definition evaluates inside the kernel.
-/

/-- JSON-like runtime value.  `num none` models `NaN`. -/
inductive Json where
  | null : Json
  | bool (b : Bool) : Json
  | num (v : Option ℚ) : Json
  | str (s : String) : Json
  | arr (elems : List Json) : Json
  | obj (fields : List (String × Json)) : Json

/-- JavaScript number: a rational, or `none` for `NaN` / `undefined`. -/
abbrev JsNum := Option ℚ

/-- First-match association-list lookup (JavaScript object keys are unique,
so first match and last match agree for values built by `mapSet`). -/
def alookup {α : Type} (key : String) : List (String × α) → Option α
  | [] => none
  | (k, v) :: rest => if k = key then some v else alookup key rest

/-- JavaScript `Map.set` / property assignment: update an existing key in
place (keeping its position), append a fresh key at the end. -/
def mapSet {α : Type} (m : List (String × α)) (key : String) (v : α) :
    List (String × α) :=
  match m with
  | [] => [(key, v)]
  | (k, w) :: rest =>
    if k = key then (key, v) :: rest else (k, w) :: mapSet rest key v

/-- The JavaScript `typeof` operator restricted to JSON-like values. -/
def typeofJs : Json → String
  | .null => "object"
  | .bool _ => "boolean"
  | .num _ => "number"
  | .str _ => "string"
  | .arr _ => "object"
  | .obj _ => "object"

/-- The JavaScript strict comparison `x === null`. -/
def isNull : Json → Bool
  | .null => true
  | _ => false

/-- JavaScript property access `x[key]` on the guarded paths of the
embedded code, where the receiver is known not to be `null`; `none`
models `undefined`.  Named properties on arrays, strings and boxed
primitives are `undefined` (index access by name never occurs in the
embedded code).  Property access on `null` throws a TypeError in
JavaScript; the one place the sources perform it unguarded —
`result.file` on a results-list entry — is modelled by the
exception-aware `processResultsE` / `flattenDatasetResultsE`. -/
def getField (j : Json) (key : String) : Option Json :=
  match j with
  | .obj fields => alookup key fields
  | _ => none

/-- JavaScript truthiness of a JSON-like value (`NaN`, `0`, the empty
string, `null` are falsy; every object and array is truthy). -/
def truthy : Json → Bool
  | .null => false
  | .bool b => b
  | .num none => false
  | .num (some q) => if q = 0 then false else true
  | .str s => if s = "" then false else true
  | .arr _ => true
  | .obj _ => true

/-- JavaScript `Object.entries`. -/
def objEntries : Json → List (String × Json)
  | .obj fields => fields
  | .arr elems => elems.enum.map (fun p => (toString p.1, p.2))
  | .str s => s.data.enum.map (fun p => (toString p.1, Json.str (String.mk [p.2])))
  | _ => []

/-- Boolean list-prefix test by structural recursion. -/
def charsPrefix : List Char → List Char → Bool
  | [], _ => true
  | _ :: _, [] => false
  | a :: as, b :: bs => if a = b then charsPrefix as bs else false

/-- Boolean contiguous-sublist test by structural recursion. -/
def charsInfix : List Char → List Char → Bool
  | pat, [] => charsPrefix pat []
  | pat, b :: bs => charsPrefix pat (b :: bs) || charsInfix pat bs

/-- JavaScript `String.prototype.includes`: substring containment. -/
def jsIncludes (s pat : String) : Bool :=
  charsInfix pat.data s.data

/-- String prefix test (used for the anchored `replace` regexes). -/
def strStartsWith (s pre : String) : Bool :=
  charsPrefix pre.data s.data

/-- String suffix test (used for the `$`-anchored `replace` regexes). -/
def strEndsWith (s post : String) : Bool :=
  charsPrefix post.data.reverse s.data.reverse

/-- Drop the first `n` characters of a string. -/
def strDrop (s : String) (n : Nat) : String :=
  String.mk (s.data.drop n)

/-- Drop the last `n` characters of a string. -/
def strDropRight (s : String) (n : Nat) : String :=
  String.mk (s.data.take (s.data.length - n))

/-- JavaScript `s.split(sep)` for the one-character separator `/`. -/
def splitSlashAux : List Char → List (List Char)
  | [] => [[]]
  | c :: rest =>
    let r := splitSlashAux rest
    if c = '/' then [] :: r
    else
      match r with
      | [] => [[c]]
      | g :: gs => (c :: g) :: gs

/-- JavaScript `s.split(sep)` for `/` as a list of strings. -/
def splitSlash (s : String) : List String :=
  (splitSlashAux s.data).map String.mk

/-- JavaScript `toLowerCase`, character by character (the embedded keyword
matching is ASCII-only). -/
def jsToLower (s : String) : String :=
  String.mk (s.data.map Char.toLower)

/-- The `filename.split(sep).pop() || filename` idiom: last path segment,
falling back to the whole string when that segment is empty. -/
def jsPop (s : String) : String :=
  let last := (splitSlash s).getLastD s
  if last = "" then s else last

/-- The `category.split(sep)[0] || unknown` idiom from the aggregator. -/
def jsFirstSeg (s : String) : String :=
  let h := (splitSlash s).headD ""
  if h = "" then "unknown" else h

/-- Source `normalizeDatasetKey` (transform.ts line 15): strip one exact
leading `datasets/` prefix. -/
def normalizeDatasetKey (key : String) : String :=
  if strStartsWith key "datasets/" then strDrop key 9 else key

/-- First `replace` regex of `extractCategory`: strip one trailing
`_test.json` / `_test.jsonl` / `_test.csv` suffix (the three alternatives
are mutually exclusive, so the testing order is immaterial). -/
def replaceTestSuffix (name : String) : String :=
  if strEndsWith name "_test.jsonl" then strDropRight name 11
  else if strEndsWith name "_test.json" then strDropRight name 10
  else if strEndsWith name "_test.csv" then strDropRight name 9
  else name

/-- Second `replace` regex of `extractCategory`: strip one trailing
`.json` / `.jsonl` / `.csv` suffix from the result of the first one. -/
def replaceExtSuffix (name : String) : String :=
  if strEndsWith name ".jsonl" then strDropRight name 6
  else if strEndsWith name ".json" then strDropRight name 5
  else if strEndsWith name ".csv" then strDropRight name 4
  else name

/-- Source `extractCategory` (transform.ts line 22): base name, then the
two sequential suffix replacements. -/
def extractCategory (filename : String) : String :=
  replaceExtSuffix (replaceTestSuffix (jsPop filename))

/-- Source `categorizeTest` (transform.ts lines 34-201): the 13-rule
keyword classifier, translated branch by branch. -/
def categorizeTest (filename : String) : String :=
  let name := jsToLower filename
  if jsIncludes name "computer" || jsIncludes name "machine_learning" ||
     jsIncludes name "security" then "Computer Science"
  else if jsIncludes name "math" || jsIncludes name "algebra" ||
     jsIncludes name "calculus" || jsIncludes name "geometry" ||
     jsIncludes name "statistics" || jsIncludes name "trigonometry" then "Mathematics"
  else if jsIncludes name "medicine" || jsIncludes name "nutrition" ||
     jsIncludes name "anatomy" || jsIncludes name "clinical" ||
     jsIncludes name "virology" || jsIncludes name "genetics" ||
     jsIncludes name "pharmacology" || jsIncludes name "veterinary" ||
     jsIncludes name "dentistry" || jsIncludes name "pharmacy" ||
     jsIncludes name "optometry" || jsIncludes name "occupational" ||
     jsIncludes name "therapy" || jsIncludes name "psychological" ||
     jsIncludes name "pathology" || jsIncludes name "medical" then "Medicine & Health"
  else if jsIncludes name "physics" || jsIncludes name "chemistry" ||
     jsIncludes name "biology" || jsIncludes name "astronomy" ||
     jsIncludes name "science" || jsIncludes name "medical" then "Science"
  else if jsIncludes name "law" || jsIncludes name "legal" ||
     jsIncludes name "jurisprudence" || jsIncludes name "government" ||
     jsIncludes name "politics" || jsIncludes name "foreign" ||
     jsIncludes name "policy" || jsIncludes name "politic" ||
     jsIncludes name "national" || jsIncludes name "protection" then "Law & Government"
  else if jsIncludes name "ttqav2" || jsIncludes name "history" ||
     jsIncludes name "geography" || jsIncludes name "philosophy" ||
     jsIncludes name "logic" || jsIncludes name "logical" ||
     jsIncludes name "reasoning" || jsIncludes name "religions" ||
     jsIncludes name "principles" || jsIncludes name "moral" then "Humanities & Philosophy"
  else if jsIncludes name "business" || jsIncludes name "economics" ||
     jsIncludes name "marketing" || jsIncludes name "accounting" ||
     jsIncludes name "management" || jsIncludes name "finance" ||
     jsIncludes name "financial" || jsIncludes name "analysis" ||
     jsIncludes name "auditing" || jsIncludes name "taxation" ||
     jsIncludes name "insurance" || jsIncludes name "trade" ||
     jsIncludes name "real" || jsIncludes name "estate" ||
     jsIncludes name "trust" || jsIncludes name "public" ||
     jsIncludes name "relations" || jsIncludes name "money" ||
     jsIncludes name "laundering" || jsIncludes name "econometrics" ||
     jsIncludes name "humanities" then "Business & Economics"
  else if jsIncludes name "psychology" || jsIncludes name "sociology" ||
     jsIncludes name "behavior" || jsIncludes name "sexuality" ||
     jsIncludes name "aging" || jsIncludes name "social" ||
     jsIncludes name "studies" then "Social Sciences"
  else if jsIncludes name "education" || jsIncludes name "profession" then "Education"
  else if jsIncludes name "mechanical" || jsIncludes name "technical" ||
     jsIncludes name "electrical" || jsIncludes name "engineering" then "Engineering & Technical"
  else if jsIncludes name "music" || jsIncludes name "culinary" ||
     jsIncludes name "physical" || jsIncludes name "nautical" ||
     jsIncludes name "agriculture" || jsIncludes name "fire" then "Vocational & Arts"
  else if jsIncludes name "chinese" || jsIncludes name "language" ||
     jsIncludes name "literature" || jsIncludes name "taiwanese" ||
     jsIncludes name "hokkien" then "Languages & Literature"
  else if jsIncludes name "miscellaneous" || jsIncludes name "design" ||
     jsIncludes name "global" || jsIncludes name "facts" then "Miscellaneous"
  else "Other"

/-- Flat record produced by the normalizer (`CategoryResult` in
`src/features/types.ts`).  The source carries `accuracy_std` through an
unchecked cast, so the field holds whatever JSON value was present
(`none` models an absent field / `undefined`). -/
structure CategoryResult where
  category : String
  file : String
  accuracy_mean : JsNum
  accuracy_std : Option Json

/-- One iteration of the inner `for (const result of resultsList)` loop of
`flattenDatasetResults` (transform.ts lines 238-252): push one record when
`typeof file` is `"string"` and `typeof accuracy_mean` is `"number"`. -/
def resultsPush (acc : List CategoryResult) (normalizedDataset : String)
    (result : Json) : List CategoryResult :=
  match getField result "file", getField result "accuracy_mean" with
  | some (.str file), some (.num accuracy_mean) =>
      acc ++ [{ category := normalizedDataset ++ "/" ++ extractCategory file
                file := file
                accuracy_mean := accuracy_mean
                accuracy_std := getField result "accuracy_std" }]
  | _, _ => acc

/-- The inner results loop of `flattenDatasetResults`, started from an
empty accumulator (each dataset key appends its own records in order). -/
def processResults (normalizedDataset : String) (resultsList : List Json) :
    List CategoryResult :=
  resultsList.foldl (fun acc r => resultsPush acc normalizedDataset r) []

/-- One iteration of the outer `for ... of Object.entries(datasetResults)`
loop of `flattenDatasetResults` (transform.ts lines 222-253): skip
non-object dataset values and dataset values without an array `results`
field. -/
def processDataset (entry : String × Json) : List CategoryResult :=
  let normalizedDataset := normalizeDatasetKey entry.1
  if typeofJs entry.2 ≠ "object" ∨ isNull entry.2 then []
  else match getField entry.2 "results" with
    | some (.arr resultsList) => processResults normalizedDataset resultsList
    | _ => []

/-- Source `flattenDatasetResults` (transform.ts lines 206-256; discover.ts
contains an identical copy), exception-free value semantics: the records
produced on every run that completes.  A non-object input, a missing or
falsy `dataset_results` field, and malformed datasets or entries degrade
to fewer records.  The one exception path of the source — `result.file`
throws a TypeError when a results-list entry is `null` — is modelled by
`flattenDatasetResultsE` below. -/
def flattenDatasetResults (rawData : Json) : List CategoryResult :=
  if typeofJs rawData ≠ "object" ∨ isNull rawData then []
  else match getField rawData "dataset_results" with
    | none => []
    | some datasetResults =>
      if truthy datasetResults = false then []
      else (objEntries datasetResults).flatMap processDataset

/-- The inner results loop of `flattenDatasetResults` with the JavaScript
exception semantics made explicit: `result.file` (transform.ts line 239)
throws a TypeError when the entry is `null`, modelled as `Except.error ()`
and aborting the loop; every other entry is handled exactly as in
`resultsPush`.  The accumulator is the shared `results` array of the
source. -/
def processResultsE (normalizedDataset : String) :
    List Json → List CategoryResult → Except Unit (List CategoryResult)
  | [], acc => Except.ok acc
  | r :: rest, acc =>
    if isNull r then Except.error ()
    else processResultsE normalizedDataset rest (resultsPush acc normalizedDataset r)

/-- One iteration of the outer entries loop with exception semantics: the
guards of `processDataset` never throw, so an exception can only come from
the results loop. -/
def processDatasetE (acc : List CategoryResult) (entry : String × Json) :
    Except Unit (List CategoryResult) :=
  let normalizedDataset := normalizeDatasetKey entry.1
  if typeofJs entry.2 ≠ "object" ∨ isNull entry.2 then Except.ok acc
  else match getField entry.2 "results" with
    | some (.arr resultsList) => processResultsE normalizedDataset resultsList acc
    | _ => Except.ok acc

/-- The outer `for ... of Object.entries(datasetResults)` loop with
exception semantics: entries are processed left to right into one shared
accumulator, and the first `null` results-list element aborts the whole
loop. -/
def foldDatasetsE : List (String × Json) → List CategoryResult →
    Except Unit (List CategoryResult)
  | [], acc => Except.ok acc
  | p :: rest, acc =>
    match processDatasetE acc p with
    | Except.error e => Except.error e
    | Except.ok acc2 => foldDatasetsE rest acc2

/-- Source `flattenDatasetResults` with the JavaScript exception semantics
made explicit: `Except.error ()` models the TypeError raised by
`result.file` on a `null` results-list entry; on every other path the
function returns, without throwing, the records of
`flattenDatasetResults`. -/
def flattenDatasetResultsE (rawData : Json) :
    Except Unit (List CategoryResult) :=
  if typeofJs rawData ≠ "object" ∨ isNull rawData then Except.ok []
  else match getField rawData "dataset_results" with
    | none => Except.ok []
    | some datasetResults =>
      if truthy datasetResults = false then Except.ok []
      else foldDatasetsE (objEntries datasetResults) []

/-- Whether one `dataset_results` entry makes the source
`flattenDatasetResults` throw: its value passes the object guard, its
`results` field is an array, and that array contains a `null` element
(whose `result.file` access raises a TypeError). -/
def entryHasNullResult (entry : String × Json) : Bool :=
  if typeofJs entry.2 ≠ "object" ∨ isNull entry.2 then false
  else match getField entry.2 "results" with
    | some (.arr resultsList) => resultsList.any isNull
    | _ => false

/-- The exact throw condition of the source `flattenDatasetResults`: the
input passes the outer guards and some `dataset_results` entry passes the
inner guards with a `results` array containing a `null` element. -/
def hasNullResultEntry (rawData : Json) : Bool :=
  if typeofJs rawData ≠ "object" ∨ isNull rawData then false
  else match getField rawData "dataset_results" with
    | none => false
    | some datasetResults =>
      if truthy datasetResults = false then false
      else (objEntries datasetResults).any entryHasNullResult

/-- A conforming results-list entry used by the C5 witness and
counterexample. -/
def c5Entry : Json :=
  Json.obj [("file", Json.str "algebra_test.csv"),
            ("accuracy_mean", Json.num (some (1/2)))]

/-- One step of `groupByCategory`: append a record to its key's bucket,
creating the key at the end on first appearance (JavaScript object
insertion order). -/
def pushGrouped (grouped : List (String × List CategoryResult)) (key : String)
    (r : CategoryResult) : List (String × List CategoryResult) :=
  match grouped with
  | [] => [(key, [r])]
  | (k, rs) :: rest =>
    if k = key then (k, rs ++ [r]) :: rest
    else (k, rs) :: pushGrouped rest key r

/-- Source `groupByCategory` (transform.ts lines 261-275): bucket flat
records by the subject classifier applied to their `category` string. -/
def groupByCategory (results : List CategoryResult) :
    List (String × List CategoryResult) :=
  results.foldl (fun g r => pushGrouped g (categorizeTest r.category) r) []

/-- One loaded source (`DataSource` in `src/features/types.ts`).  The
`label` and `data` fields are omitted: no embedded function reads them. -/
structure DataSource where
  id : String
  modelName : String
  variance : String
  timestamp : String
  isOfficial : Bool
  rawData : Json

/-- Display label built by `buildPivotTable` and `calculateCategoryStats`:
model name, variance suffix unless `default`, timestamp, official suffix. -/
def pivotSourceLabel (source : DataSource) : String :=
  let varianceLabel :=
    if source.variance ≠ "default" then " (" ++ source.variance ++ ")" else ""
  source.modelName ++ varianceLabel ++ " @ " ++ source.timestamp ++
    (if source.isOfficial then " (Official)" else "")

/-- A pivot row (`PivotRow` in `src/features/types.ts`): the `category`
field plus the dynamic source-label columns, modelled as an association
list of cells. -/
structure PivotRow where
  category : String
  cells : List (String × JsNum)
deriving DecidableEq

/-- One `row[sourceLabel] = accuracy` step of `buildPivotTable`: find or
append the row with the given category, then set its cell. -/
def pivotUpsert : List PivotRow → String → String → JsNum → List PivotRow
  | [], cat, label, v => [{ category := cat, cells := [(label, v)] }]
  | row :: rest, cat, label, v =>
    if row.category = cat then
      { row with cells := mapSet row.cells label v } :: rest
    else row :: pivotUpsert rest cat label v

/-- Source `buildPivotTable` (transform.ts lines 280-300): upsert one row
per flat-record category and one cell per source display label. -/
def buildPivotTable (sources : List DataSource) : List PivotRow :=
  sources.foldl (fun categoryMap source =>
    let results := flattenDatasetResults source.rawData
    let sourceLabel := pivotSourceLabel source
    results.foldl (fun cm r => pivotUpsert cm r.category sourceLabel r.accuracy_mean)
      categoryMap) []

/-- JavaScript subtraction on numbers; `NaN` propagates. -/
def jsSub (a b : JsNum) : JsNum :=
  match a, b with
  | some x, some y => some (x - y)
  | _, _ => none

/-- JavaScript addition on numbers; `NaN` propagates. -/
def jsAdd (a b : JsNum) : JsNum :=
  match a, b with
  | some x, some y => some (x + y)
  | _, _ => none

/-- JavaScript `Math.abs`; `NaN` propagates. -/
def jsAbs (a : JsNum) : JsNum :=
  a.map (fun x => |x|)

/-- JavaScript `Math.pow(x, 2)`; `NaN` propagates. -/
def jsPow2 (a : JsNum) : JsNum :=
  a.map (fun x => x ^ 2)

/-- JavaScript `Math.min` of two numbers; `NaN` propagates. -/
def jsMin2 (a b : JsNum) : JsNum :=
  match a, b with
  | some x, some y => some (min x y)
  | _, _ => none

/-- JavaScript `Math.max` of two numbers; `NaN` propagates. -/
def jsMax2 (a b : JsNum) : JsNum :=
  match a, b with
  | some x, some y => some (max x y)
  | _, _ => none

/-- Division of a JavaScript number by an array length.  A zero length
gives `none` (in JavaScript `0 / 0` is `NaN` and `x / 0` is an infinity;
every embedded division is guarded by a positive length, so only the
`NaN`-propagation part of this definition is ever exercised). -/
def jsDivLen (a : JsNum) (n : Nat) : JsNum :=
  match a with
  | some q => if n = 0 then none else some (q / (n : ℚ))
  | none => none

/-- `d3.mean`: arithmetic mean ignoring `undefined` and `NaN` entries;
`undefined` when no entry is a finite number. -/
def d3mean (xs : List JsNum) : JsNum :=
  let fs := xs.filterMap id
  if fs.length = 0 then none else some (fs.sum / (fs.length : ℚ))

/-- `d3.min`: least finite entry, ignoring `undefined` and `NaN`;
`undefined` when there is none. -/
def d3min (xs : List JsNum) : JsNum :=
  (xs.filterMap id).foldl
    (fun acc v =>
      match acc with
      | none => some v
      | some a => some (min a v)) none

/-- `d3.max`: greatest finite entry, ignoring `undefined` and `NaN`;
`undefined` when there is none. -/
def d3max (xs : List JsNum) : JsNum :=
  (xs.filterMap id).foldl
    (fun acc v =>
      match acc with
      | none => some v
      | some a => some (max a v)) none

/-- A test entry of the aggregator (CategoryDashboard.tsx lines 25-30):
tests are pooled across sources by base test name; `values` maps a model
name to that model's `accuracy_mean` for the test.  The per-run min/max
that the source also stores in `values` feed only the detail rendering
(never `avgPerModel`, `minPerModel`, `maxPerModel` or the overall
statistics, which all read the `avg` component) and are omitted. -/
structure TestEntry where
  testName : String
  fullPath : String
  dataset : String
  values : List (String × JsNum)
deriving DecidableEq

/-- Aggregated per-category statistics (CategoryDashboard.tsx lines 22-38). -/
structure CategoryStats where
  name : String
  testCount : Nat
  tests : List TestEntry
  avgPerModel : List (String × JsNum)
  minPerModel : List (String × JsNum)
  maxPerModel : List (String × JsNum)
  overallAvg : JsNum
  overallMin : JsNum
  overallMax : JsNum
  variance : JsNum
deriving DecidableEq

/-- The category entry created on first appearance (CategoryDashboard.tsx
lines 69-80). -/
def emptyStats (categoryName : String) : CategoryStats :=
  { name := categoryName
    testCount := 0
    tests := []
    avgPerModel := []
    minPerModel := []
    maxPerModel := []
    overallAvg := some 0
    overallMin := some 1
    overallMax := some 0
    variance := some 0 }

/-- One `categoryResults.forEach` step of the aggregator (lines 86-145):
find the test entry by base test name (creating it at the end when
missing, with the first record's full path and dataset) and set the
model's value to the record's `accuracy_mean`. -/
def setTestValue : List TestEntry → String → String → String → String →
    JsNum → List TestEntry
  | [], testName, fullPath, dataset, modelName, acc =>
    [{ testName := testName, fullPath := fullPath, dataset := dataset
       values := [(modelName, acc)] }]
  | t :: ts, testName, fullPath, dataset, modelName, acc =>
    if t.testName = testName then
      { t with values := mapSet t.values modelName acc } :: ts
    else t :: setTestValue ts testName fullPath dataset modelName acc

/-- Process one source's bucket of records for one category (the
`categoryResults.forEach` loop). -/
def processBucket (tests : List TestEntry) (modelName : String)
    (bucket : List CategoryResult) : List TestEntry :=
  bucket.foldl
    (fun ts r =>
      setTestValue ts (jsPop r.category) r.category (jsFirstSeg r.category)
        modelName r.accuracy_mean) tests

/-- Get-or-create upsert on the aggregator's category map (lines 68-83). -/
def updateCat (cats : List (String × CategoryStats)) (categoryName : String)
    (f : CategoryStats → CategoryStats) : List (String × CategoryStats) :=
  match cats with
  | [] => [(categoryName, f (emptyStats categoryName))]
  | (k, st) :: rest =>
    if k = categoryName then (k, f st) :: rest
    else (k, st) :: updateCat rest categoryName f

/-- Phase one of the aggregator for one source (lines 56-147): flatten,
group by subject category, and merge every bucket into the category map. -/
def processSource (cats : List (String × CategoryStats)) (source : DataSource) :
    List (String × CategoryStats) :=
  (groupByCategory (flattenDatasetResults source.rawData)).foldl
    (fun cs p =>
      updateCat cs p.1
        (fun stat => { stat with tests := processBucket stat.tests source.modelName p.2 }))
    cats

/-- The accuracies collected for one model in one category (lines 154-158):
the `avg` component of every test entry that has a value for the model. -/
def modelAccuracies (tests : List TestEntry) (modelName : String) : List JsNum :=
  tests.filterMap (fun t => alookup modelName t.values)

/-- One `sources.forEach` step of phase two of the aggregator (lines
153-168): collect the model's accuracies over the category's tests and,
when nonempty, set the model's entries in the per-model maps. -/
def perModelStep (st : CategoryStats) (source : DataSource) : CategoryStats :=
  let accuracies := modelAccuracies st.tests source.modelName
  if accuracies.length > 0 then
    { st with
        avgPerModel := mapSet st.avgPerModel source.modelName (d3mean accuracies)
        minPerModel := mapSet st.minPerModel source.modelName (d3min accuracies)
        maxPerModel := mapSet st.maxPerModel source.modelName (d3max accuracies) }
  else st

/-- Phase two of the aggregator for one category (lines 150-168): set
`testCount` and the per-model average/min/max maps, iterating over all
sources. -/
def computePerModel (sources : List DataSource) (stat : CategoryStats) :
    CategoryStats :=
  sources.foldl perModelStep { stat with testCount := stat.tests.length }

/-- Phase three of the aggregator for one category (lines 170-183):
overall average/min/max across the per-model values and the population
variance of the per-model averages around `overallAvg`. -/
def finalizeStat (stat : CategoryStats) : CategoryStats :=
  let allAvgs := stat.avgPerModel.map (fun p => p.2)
  if allAvgs.length > 0 then
    let mean := d3mean allAvgs
    { stat with
        overallAvg := mean
        overallMin := d3min (stat.minPerModel.map (fun p => p.2))
        overallMax := d3max (stat.maxPerModel.map (fun p => p.2))
        variance :=
          jsDivLen
            (allAvgs.foldl (fun sum val => jsAdd sum (jsPow2 (jsSub val mean)))
              (some 0))
            allAvgs.length }
  else stat

/-- The aggregator (the `categoryStats` useMemo of CategoryDashboard.tsx,
lines 53-187): phase one over all sources, then phases two and three for
every category, in category insertion order. -/
def categoryStats (sources : List DataSource) : List CategoryStats :=
  ((sources.foldl processSource []).map
    (fun p => finalizeStat (computePerModel sources p.2)))

/-- A delta row (`DeltaRow` in `src/features/types.ts`). -/
structure DeltaRow where
  category : String
  baseline : JsNum
  candidate : JsNum
  delta : JsNum
  absDelta : JsNum
  candidateLabel : String
deriving DecidableEq

/-- Candidate display label of `calculateDeltas` (discover.ts line 501):
model name, timestamp and official suffix (no variance suffix here). -/
def candidateLabelOf (candidate : DataSource) : String :=
  candidate.modelName ++ " @ " ++ candidate.timestamp ++
    (if candidate.isOfficial then " (Official)" else "")

/-- The baseline lookup of `calculateDeltas` (discover.ts lines 492-495):
`new Map` over the flattened category/accuracy pairs, so a duplicated
baseline category keeps the last value. -/
def baselineMapOf (baselineSource : DataSource) : List (String × JsNum) :=
  (flattenDatasetResults baselineSource.rawData).foldl
    (fun m r => mapSet m r.category r.accuracy_mean) []

/-- Source `calculateDeltas` (discover.ts lines 488-520): for every
candidate record whose category is present in the baseline map, push one
delta row. -/
def calculateDeltas (baselineSource : DataSource)
    (candidateSources : List DataSource) : List DeltaRow :=
  let baselineMap := baselineMapOf baselineSource
  candidateSources.foldl
    (fun deltas candidate =>
      let candidateResults := flattenDatasetResults candidate.rawData
      let label := candidateLabelOf candidate
      candidateResults.foldl
        (fun ds r =>
          match alookup r.category baselineMap with
          | some baseline =>
            ds ++ [{ category := r.category
                     baseline := baseline
                     candidate := r.accuracy_mean
                     delta := jsSub r.accuracy_mean baseline
                     absDelta := jsAbs (jsSub r.accuracy_mean baseline)
                     candidateLabel := label }]
          | none => ds)
        deltas)
    []

namespace Discover

/-- The private `categorizeTest` of discover.ts (lines 226-284): a smaller
8-rule table than the transform.ts classifier. -/
def categorizeTest (filename : String) : String :=
  let name := jsToLower filename
  if jsIncludes name "math" || jsIncludes name "algebra" ||
     jsIncludes name "calculus" || jsIncludes name "geometry" ||
     jsIncludes name "statistics" || jsIncludes name "trigonometry" then "Mathematics"
  else if jsIncludes name "physics" || jsIncludes name "chemistry" ||
     jsIncludes name "biology" || jsIncludes name "astronomy" then "Science"
  else if jsIncludes name "computer" || jsIncludes name "machine_learning" ||
     jsIncludes name "security" then "Computer Science"
  else if jsIncludes name "law" || jsIncludes name "legal" ||
     jsIncludes name "jurisprudence" then "Law"
  else if jsIncludes name "history" || jsIncludes name "geography" ||
     jsIncludes name "philosophy" then "Humanities"
  else if jsIncludes name "business" || jsIncludes name "economics" ||
     jsIncludes name "marketing" || jsIncludes name "accounting" ||
     jsIncludes name "management" then "Business & Economics"
  else if jsIncludes name "medicine" || jsIncludes name "nutrition" ||
     jsIncludes name "anatomy" || jsIncludes name "clinical" ||
     jsIncludes name "virology" then "Medicine & Health"
  else if jsIncludes name "psychology" || jsIncludes name "sociology" then "Social Sciences"
  else "Other"

/-- discover.ts `groupByCategory` (lines 344-358), using the discover.ts
classifier. -/
def groupByCategory (results : List CategoryResult) :
    List (String × List CategoryResult) :=
  results.foldl (fun g r => pushGrouped g (Discover.categorizeTest r.category) r) []

/-- JavaScript `Math.min(...accuracies)`; `NaN` propagates.  `Math.min` of
no arguments is `Infinity`, which has no rational model; the function is
only applied to nonempty buckets, where `none` is never that case. -/
def jsMathMin : List JsNum → JsNum
  | [] => none
  | x :: xs => xs.foldl jsMin2 x

/-- JavaScript `Math.max(...accuracies)`; `NaN` propagates (empty case as
for `jsMathMin`). -/
def jsMathMax : List JsNum → JsNum
  | [] => none
  | x :: xs => xs.foldl jsMax2 x

/-- One per-source, per-category statistics row of
`calculateCategoryStats` (discover.ts lines 363-401). -/
structure CategoryStatRow where
  category : String
  source : String
  avgAccuracy : JsNum
  minAccuracy : JsNum
  maxAccuracy : JsNum
  count : Nat
deriving DecidableEq

/-- Source `calculateCategoryStats` (discover.ts lines 363-401): one row
per source and per subject category, with the plain `reduce`-based mean
over the raw accuracies (through which `NaN` propagates, unlike the
`d3.mean` of the dashboard aggregator). -/
def calculateCategoryStats (sources : List DataSource) : List CategoryStatRow :=
  sources.flatMap (fun source =>
    let results := flattenDatasetResults source.rawData
    let grouped := Discover.groupByCategory results
    let sourceLabel := pivotSourceLabel source
    grouped.map (fun p =>
      let accuracies := p.2.map (fun r => r.accuracy_mean)
      { category := p.1
        source := sourceLabel
        avgAccuracy := jsDivLen (accuracies.foldl jsAdd (some 0)) accuracies.length
        minAccuracy := jsMathMin accuracies
        maxAccuracy := jsMathMax accuracies
        count := accuracies.length }))

end Discover

/-- The result of one entry of a dataset's results list: `some` record
exactly when the `file` field is a string and the `accuracy_mean` field is
a number (the push condition of transform.ts line 243). -/
def entryRecord (normalizedDataset : String) (result : Json) :
    Option CategoryResult :=
  match getField result "file", getField result "accuracy_mean" with
  | some (.str file), some (.num accuracy_mean) =>
    some { category := normalizedDataset ++ "/" ++ extractCategory file
           file := file
           accuracy_mean := accuracy_mean
           accuracy_std := getField result "accuracy_std" }
  | _, _ => none

/-- The JavaScript `typeof entry[key]` (with `"undefined"` for a missing
field), used to state the C5 contribution condition. -/
def jsTypeofField (entry : Json) (key : String) : String :=
  match getField entry key with
  | some v => typeofJs v
  | none => "undefined"

/-- Modelled from the spec (claims C3/C6 state rule tables and suffix
lists): strip the first suffix of the list that matches, trying the
suffixes in the given priority order. -/
def stripFirstSuffix (suffixes : List String) (s : String) : String :=
  match suffixes.find? (fun suf => strEndsWith s suf) with
  | some suf => strDropRight s suf.data.length
  | none => s

/-- Modelled from the spec: the stem function exactly as claim C6 states
it — base name, then one strip over the five-suffix priority list
`_test.csv`, `_test.json`, `_test.jsonl`, `.json`, `.jsonl`. -/
def claimStem (filename : String) : String :=
  stripFirstSuffix ["_test.csv", "_test.json", "_test.jsonl", ".json", ".jsonl"]
    (jsPop filename)

/-- Modelled from the amended claim C6: base name, then a strip over the
`_test` suffixes, then a strip over the bare extensions including
`.csv`, applied to the result of the first pass. -/
def specStem (filename : String) : String :=
  stripFirstSuffix [".json", ".jsonl", ".csv"]
    (stripFirstSuffix ["_test.csv", "_test.json", "_test.jsonl"] (jsPop filename))

/-- Modelled from the spec: does one classifier rule (label, keyword
disjunction) match the lowercased name? -/
def ruleMatches (name : String) (rule : String × List String) : Bool :=
  rule.2.any (fun kw => jsIncludes name kw)

/-- Modelled from the spec: scan an ordered rule table, first matching
rule wins, `Other` when none matches. -/
def scanRules (rules : List (String × List String)) (name : String) : String :=
  match rules with
  | [] => "Other"
  | rule :: rest => if ruleMatches name rule then rule.1 else scanRules rest name

/-- Modelled from the spec: the ordered rule table stated by claim C3
(labels in precedence order, each with its keyword disjunction). -/
def classifierRules : List (String × List String) :=
  [("Computer Science", ["computer", "machine_learning", "security"]),
   ("Mathematics",
    ["math", "algebra", "calculus", "geometry", "statistics", "trigonometry"]),
   ("Medicine & Health",
    ["medicine", "nutrition", "anatomy", "clinical", "virology", "genetics",
     "pharmacology", "veterinary", "dentistry", "pharmacy", "optometry",
     "occupational", "therapy", "psychological", "pathology", "medical"]),
   ("Science",
    ["physics", "chemistry", "biology", "astronomy", "science", "medical"]),
   ("Law & Government",
    ["law", "legal", "jurisprudence", "government", "politics", "foreign",
     "policy", "politic", "national", "protection"]),
   ("Humanities & Philosophy",
    ["ttqav2", "history", "geography", "philosophy", "logic", "logical",
     "reasoning", "religions", "principles", "moral"]),
   ("Business & Economics",
    ["business", "economics", "marketing", "accounting", "management",
     "finance", "financial", "analysis", "auditing", "taxation", "insurance",
     "trade", "real", "estate", "trust", "public", "relations", "money",
     "laundering", "econometrics", "humanities"]),
   ("Social Sciences",
    ["psychology", "sociology", "behavior", "sexuality", "aging", "social",
     "studies"]),
   ("Education", ["education", "profession"]),
   ("Engineering & Technical",
    ["mechanical", "technical", "electrical", "engineering"]),
   ("Vocational & Arts",
    ["music", "culinary", "physical", "nautical", "agriculture", "fire"]),
   ("Languages & Literature",
    ["chinese", "language", "literature", "taiwanese", "hokkien"]),
   ("Miscellaneous", ["miscellaneous", "design", "global", "facts"])]

/-- The fixed closed set of subject labels stated by claim C3. -/
def subjectLabels : List String :=
  ["Computer Science", "Mathematics", "Medicine & Health", "Science",
   "Law & Government", "Humanities & Philosophy", "Business & Economics",
   "Social Sciences", "Education", "Engineering & Technical",
   "Vocational & Arts", "Languages & Literature", "Miscellaneous", "Other"]

/-- The categories of a source's flat records (used to state claim C9). -/
def sourceCategories (s : DataSource) : List String :=
  (flattenDatasetResults s.rawData).map (fun r => r.category)

/-- Modelled from the claim C1 wording: a source's bucket of flat records
for one subject category. -/
def bucketOf (s : DataSource) (categoryName : String) : List CategoryResult :=
  (alookup categoryName (groupByCategory (flattenDatasetResults s.rawData))).getD []

/-- Modelled from the claim C1 wording: the arithmetic mean of a record
list's accuracies (over the finite ones; under the no-NaN hypothesis of
the amended claim this is the plain mean over the records). -/
def recordsMean (rs : List CategoryResult) : ℚ :=
  ((rs.filterMap (fun r => r.accuracy_mean)).sum) / (rs.length : ℚ)

/-- Modelled from the claim C1 wording: the sources contributing at least
one record to the category. -/
def contributingSources (sources : List DataSource) (categoryName : String) :
    List DataSource :=
  sources.filter (fun s => !(bucketOf s categoryName).isEmpty)

/-- Modelled from the claim C1 wording: the arithmetic mean of the
per-source average accuracies, one average per contributing source, each
over that source's own records in the category. -/
def sourceBalancedAvg (sources : List DataSource) (categoryName : String) : ℚ :=
  let contrib := contributingSources sources categoryName
  ((contrib.map (fun s => recordsMean (bucketOf s categoryName))).sum) /
    (contrib.length : ℚ)

/-- Modelled from the claim C7 wording: population variance (divide by N,
not N−1) of a list of rationals around their arithmetic mean. -/
def popVariance (vs : List ℚ) : ℚ :=
  ((vs.map (fun v => (v - vs.sum / (vs.length : ℚ)) ^ 2)).sum) / (vs.length : ℚ)

/-- Builder for concrete result documents: a dataset-results map from
dataset keys to entry lists of (file, accuracy_mean) pairs. -/
def mkMultiDoc (datasets : List (String × List (String × Option ℚ))) : Json :=
  Json.obj [("dataset_results", Json.obj (datasets.map (fun d =>
    (d.1, Json.obj [("results", Json.arr (d.2.map (fun e =>
      Json.obj [("file", Json.str e.1), ("accuracy_mean", Json.num e.2)])))]))))]

/-- Concrete source whose only entry has `accuracy_mean = NaN` (C10). -/
def nanSource : DataSource :=
  { id := "nan-id", modelName := "model-nan", variance := "default"
    timestamp := "2024-01-01", isOfficial := false
    rawData := mkMultiDoc [("datasets/mmlu", [("anatomy_test.csv", none)])] }

/-- Concrete baseline source for the C10 delta conjunct. -/
def c10BaseSource : DataSource :=
  { id := "base-id", modelName := "model-base", variance := "default"
    timestamp := "2024-01-02", isOfficial := false
    rawData := mkMultiDoc [("datasets/mmlu", [("anatomy_test.csv", some (1/2))])] }

/-- Concrete document whose entry file name ends in a bare `.csv` (C6). -/
def csvDoc : Json :=
  mkMultiDoc [("datasets/mmlu", [("biology.csv", some (1/2))])]

/-- Concrete document realizing the C6 round-trip example. -/
def mmluDoc : Json :=
  mkMultiDoc [("datasets/mmlu", [("abstract_algebra_test.csv", some (1/2))])]

/-- The single flat record of `mmluDoc`. -/
def mmluRecord : CategoryResult :=
  { category := "mmlu/abstract_algebra", file := "abstract_algebra_test.csv"
    accuracy_mean := some (1/2), accuracy_std := none }

/-- Concrete pivot sources with colliding display labels (C9): same model
name, variance, timestamp and official flag, distinct ids; the second
source has no records. -/
def pivotCexA : DataSource :=
  { id := "id-a", modelName := "m", variance := "default", timestamp := "t"
    isOfficial := false
    rawData := mkMultiDoc [("datasets/mmlu", [("anatomy_test.csv", some (1/2))])] }

/-- Second colliding pivot source (no records). -/
def pivotCexB : DataSource :=
  { id := "id-b", modelName := "m", variance := "default", timestamp := "t"
    isOfficial := false, rawData := Json.obj [] }

/-- Concrete pivot sources with distinct display labels (C9 witness). -/
def pivotWitA : DataSource :=
  { id := "id-1", modelName := "alpha", variance := "default", timestamp := "t1"
    isOfficial := false
    rawData := mkMultiDoc [("datasets/mmlu",
      [("anatomy_test.csv", some (1/2)), ("algebra_test.csv", some (3/4))])] }

/-- Second pivot witness source. -/
def pivotWitB : DataSource :=
  { id := "id-2", modelName := "beta", variance := "default", timestamp := "t1"
    isOfficial := true
    rawData := mkMultiDoc [("datasets/tmmluplus", [("anatomy_test.csv", some (1/4))])] }

/-- Concrete aggregator source with two records in the same subject
category sharing the base test name `algebra` (C1 counterexample: the
aggregator pools tests by base name, so the second record overwrites the
first in the values map). -/
def aggCexSource : DataSource :=
  { id := "id-x", modelName := "m", variance := "default", timestamp := "t"
    isOfficial := false
    rawData := mkMultiDoc
      [("datasets/mmlu", [("algebra_test.csv", some (9/10))]),
       ("datasets/tmmluplus", [("algebra_test.csv", some (1/2))])] }

/-- Concrete aggregator witness source: model `alpha` with two Mathematics
records averaging 9/10. -/
def aggWitA : DataSource :=
  { id := "id-a", modelName := "alpha", variance := "default", timestamp := "t1"
    isOfficial := false
    rawData := mkMultiDoc [("datasets/mmlu",
      [("algebra_test.csv", some (9/10)), ("geometry_test.csv", some (9/10))])] }

/-- Concrete aggregator witness source: model `beta` with one Mathematics
record at 1/2. -/
def aggWitB : DataSource :=
  { id := "id-b", modelName := "beta", variance := "default", timestamp := "t2"
    isOfficial := false
    rawData := mkMultiDoc [("datasets/mmlu", [("calculus_test.csv", some (1/2))])] }

/-- Two aggregator sources sharing the model name `m` with distinct ids
(C8 counterexample). -/
def aggShareA : DataSource :=
  { id := "id-a", modelName := "m", variance := "default", timestamp := "t1"
    isOfficial := false
    rawData := mkMultiDoc [("datasets/mmlu",
      [("algebra_test.csv", some (9/10)), ("geometry_test.csv", some (7/10))])] }

/-- Second source sharing the model name `m` (C8 counterexample). -/
def aggShareB : DataSource :=
  { id := "id-b", modelName := "m", variance := "default", timestamp := "t2"
    isOfficial := false
    rawData := mkMultiDoc [("datasets/mmlu", [("calculus_test.csv", some (1/5))])] }

/-- The tests list stored for a category name in the aggregator's
category map (empty when the category is absent).  Statement helper for
the C1 development. -/
def testsAt (cats : List (String × CategoryStats)) (cn : String) :
    List TestEntry :=
  match alookup cn cats with
  | some st => st.tests
  | none => []

/-- Statement helper for C9: some row of the pivot table with the given
category has a cell under the given label. -/
def hasCell (rows : List PivotRow) (label c : String) : Prop :=
  ∃ row ∈ rows, row.category = c ∧ (alookup label row.cells).isSome = true

theorem headD_mem {α : Type} (l : List α) (d : α) (h : l ≠ []) : l.headD d ∈ l := by
  cases l with
  | nil => exact absurd rfl h
  | cons x xs => exact List.mem_cons_self x xs

theorem foldl_extend {α β : Type} (st : List β → α → List β) (k : α → List β)
    (h : ∀ ds r, st ds r = ds ++ k r) (l : List α) :
    ∀ acc : List β, l.foldl st acc = acc ++ l.flatMap k := by
  induction l with
  | nil => intro acc; simp
  | cons x xs ih =>
    intro acc
    simp only [List.foldl_cons, List.flatMap_cons, h, ih, List.append_assoc]

theorem flatMap_option_toList {α β : Type} (f : α → Option β) (l : List α) :
    (l.flatMap fun a => (f a).toList) = l.filterMap f := by
  induction l with
  | nil => rfl
  | cons x xs ih => cases h : f x <;> simp [List.flatMap_cons, h, ih]

theorem resultsPush_eq (acc : List CategoryResult) (nd : String) (r : Json) :
    resultsPush acc nd r = acc ++ (entryRecord nd r).toList := by
  unfold resultsPush entryRecord
  split <;> simp

theorem processResults_eq_filterMap (nd : String) (l : List Json) :
    processResults nd l = l.filterMap (entryRecord nd) := by
  unfold processResults
  rw [foldl_extend _ (fun r => (entryRecord nd r).toList)
    (fun ds r => resultsPush_eq ds nd r) l []]
  rw [List.nil_append, flatMap_option_toList]

theorem typeofJs_string_iff (j : Json) : typeofJs j = "string" ↔ ∃ s, j = Json.str s := by
  cases j <;> simp [typeofJs]

theorem typeofJs_number_iff (j : Json) : typeofJs j = "number" ↔ ∃ v, j = Json.num v := by
  cases j <;> simp [typeofJs]

theorem processResultsE_eq (nd : String) (l : List Json) :
    ∀ acc : List CategoryResult,
      processResultsE nd l acc =
        if l.any isNull = true then Except.error ()
        else Except.ok (acc ++ processResults nd l) := by
  induction l with
  | nil =>
    intro acc
    simp [processResultsE, processResults]
  | cons r rest ih =>
    intro acc
    cases h : isNull r with
    | true =>
      simp only [processResultsE]
      rw [if_pos h, List.any_cons, h, Bool.true_or, if_pos rfl]
    | false =>
      simp only [processResultsE]
      rw [if_neg (by rw [h]; exact Bool.false_ne_true), ih, List.any_cons, h,
        Bool.false_or]
      by_cases h2 : rest.any isNull = true
      · rw [if_pos h2, if_pos h2]
      · rw [if_neg h2, if_neg h2]
        cases hE : entryRecord nd r <;>
          simp [resultsPush_eq, processResults_eq_filterMap,
            List.filterMap_cons, hE]

theorem processDatasetE_eq (acc : List CategoryResult) (entry : String × Json) :
    processDatasetE acc entry =
      if entryHasNullResult entry = true then Except.error ()
      else Except.ok (acc ++ processDataset entry) := by
  by_cases h : typeofJs entry.2 ≠ "object" ∨ isNull entry.2 = true
  · have h1 : processDatasetE acc entry = Except.ok acc := by
      simp only [processDatasetE]
      rw [if_pos h]
    have h2 : entryHasNullResult entry = false := by
      simp only [entryHasNullResult]
      rw [if_pos h]
    have h3 : processDataset entry = [] := by
      simp only [processDataset]
      rw [if_pos h]
    rw [h1, h2, h3]
    simp
  · rcases hg : getField entry.2 "results" with _ | v
    · have h1 : processDatasetE acc entry = Except.ok acc := by
        simp only [processDatasetE]
        rw [if_neg h, hg]
      have h2 : entryHasNullResult entry = false := by
        simp only [entryHasNullResult]
        rw [if_neg h, hg]
      have h3 : processDataset entry = [] := by
        simp only [processDataset]
        rw [if_neg h, hg]
      rw [h1, h2, h3]
      simp
    · rcases v with _ | b | nv | sv | l | fv
      ·
        have h1 : processDatasetE acc entry = Except.ok acc := by
          simp only [processDatasetE]
          rw [if_neg h, hg]
        have h2 : entryHasNullResult entry = false := by
          simp only [entryHasNullResult]
          rw [if_neg h, hg]
        have h3 : processDataset entry = [] := by
          simp only [processDataset]
          rw [if_neg h, hg]
        rw [h1, h2, h3]
        simp
      ·
        have h1 : processDatasetE acc entry = Except.ok acc := by
          simp only [processDatasetE]
          rw [if_neg h, hg]
        have h2 : entryHasNullResult entry = false := by
          simp only [entryHasNullResult]
          rw [if_neg h, hg]
        have h3 : processDataset entry = [] := by
          simp only [processDataset]
          rw [if_neg h, hg]
        rw [h1, h2, h3]
        simp
      ·
        have h1 : processDatasetE acc entry = Except.ok acc := by
          simp only [processDatasetE]
          rw [if_neg h, hg]
        have h2 : entryHasNullResult entry = false := by
          simp only [entryHasNullResult]
          rw [if_neg h, hg]
        have h3 : processDataset entry = [] := by
          simp only [processDataset]
          rw [if_neg h, hg]
        rw [h1, h2, h3]
        simp
      ·
        have h1 : processDatasetE acc entry = Except.ok acc := by
          simp only [processDatasetE]
          rw [if_neg h, hg]
        have h2 : entryHasNullResult entry = false := by
          simp only [entryHasNullResult]
          rw [if_neg h, hg]
        have h3 : processDataset entry = [] := by
          simp only [processDataset]
          rw [if_neg h, hg]
        rw [h1, h2, h3]
        simp
      ·
        have h1 : processDatasetE acc entry =
            processResultsE (normalizeDatasetKey entry.1) l acc := by
          simp only [processDatasetE]
          rw [if_neg h, hg]
        have h2 : entryHasNullResult entry = l.any isNull := by
          simp only [entryHasNullResult]
          rw [if_neg h, hg]
        have h3 : processDataset entry =
            processResults (normalizeDatasetKey entry.1) l := by
          simp only [processDataset]
          rw [if_neg h, hg]
        rw [h1, h2, h3, processResultsE_eq]
      ·
        have h1 : processDatasetE acc entry = Except.ok acc := by
          simp only [processDatasetE]
          rw [if_neg h, hg]
        have h2 : entryHasNullResult entry = false := by
          simp only [entryHasNullResult]
          rw [if_neg h, hg]
        have h3 : processDataset entry = [] := by
          simp only [processDataset]
          rw [if_neg h, hg]
        rw [h1, h2, h3]
        simp

theorem foldDatasetsE_eq (l : List (String × Json)) :
    ∀ acc : List CategoryResult,
      foldDatasetsE l acc =
        if l.any entryHasNullResult = true then Except.error ()
        else Except.ok (acc ++ l.flatMap processDataset) := by
  induction l with
  | nil =>
    intro acc
    simp [foldDatasetsE]
  | cons p rest ih =>
    intro acc
    simp only [foldDatasetsE]
    rw [processDatasetE_eq, List.any_cons]
    cases hp : entryHasNullResult p with
    | true =>
      rw [if_pos rfl, Bool.true_or, if_pos rfl]
    | false =>
      rw [if_neg (by exact Bool.false_ne_true)]
      have hred : (match (Except.ok (acc ++ processDataset p) :
            Except Unit (List CategoryResult)) with
          | Except.error e => Except.error e
          | Except.ok acc2 => foldDatasetsE rest acc2) =
          foldDatasetsE rest (acc ++ processDataset p) := rfl
      rw [hred, ih, Bool.false_or, List.flatMap_cons]
      by_cases h2 : rest.any entryHasNullResult = true
      · rw [if_pos h2, if_pos h2]
      · rw [if_neg h2, if_neg h2, List.append_assoc]

/-- C4 (amended): `flattenDatasetResults` always terminates but is not
exception-free: it throws a TypeError — the unguarded `result.file`
access — exactly when the input passes the outer guards and some dataset
value passes the object guard with a `results` array containing a `null`
element; on every other input it returns, without throwing, the record
list of the exception-free characterization, and in particular a
non-object or null input and an input whose `dataset_results` field is
absent or falsy yield the empty list. -/
theorem flattenDatasetResultsE_spec (doc : Json) :
    flattenDatasetResultsE doc =
      if hasNullResultEntry doc = true then Except.error ()
      else Except.ok (flattenDatasetResults doc) := by
  by_cases h : typeofJs doc ≠ "object" ∨ isNull doc = true
  · have h1 : flattenDatasetResultsE doc = Except.ok [] := by
      simp only [flattenDatasetResultsE]
      rw [if_pos h]
    have h2 : hasNullResultEntry doc = false := by
      simp only [hasNullResultEntry]
      rw [if_pos h]
    have h3 : flattenDatasetResults doc = [] := by
      simp only [flattenDatasetResults]
      rw [if_pos h]
    rw [h1, h2, h3]
    simp
  · rcases hg : getField doc "dataset_results" with _ | dv
    · have h1 : flattenDatasetResultsE doc = Except.ok [] := by
        simp only [flattenDatasetResultsE]
        rw [if_neg h, hg]
      have h2 : hasNullResultEntry doc = false := by
        simp only [hasNullResultEntry]
        rw [if_neg h, hg]
      have h3 : flattenDatasetResults doc = [] := by
        simp only [flattenDatasetResults]
        rw [if_neg h, hg]
      rw [h1, h2, h3]
      simp
    · by_cases ht : truthy dv = false
      · have h1 : flattenDatasetResultsE doc = Except.ok [] := by
          simp only [flattenDatasetResultsE]
          rw [if_neg h]
          simp only [hg]
          rw [if_pos ht]
        have h2 : hasNullResultEntry doc = false := by
          simp only [hasNullResultEntry]
          rw [if_neg h]
          simp only [hg]
          rw [if_pos ht]
        have h3 : flattenDatasetResults doc = [] := by
          simp only [flattenDatasetResults]
          rw [if_neg h]
          simp only [hg]
          rw [if_pos ht]
        rw [h1, h2, h3]
        simp
      · have h1 : flattenDatasetResultsE doc =
            foldDatasetsE (objEntries dv) [] := by
          simp only [flattenDatasetResultsE]
          rw [if_neg h]
          simp only [hg]
          rw [if_neg ht]
        have h2 : hasNullResultEntry doc =
            (objEntries dv).any entryHasNullResult := by
          simp only [hasNullResultEntry]
          rw [if_neg h]
          simp only [hg]
          rw [if_neg ht]
        have h3 : flattenDatasetResults doc =
            (objEntries dv).flatMap processDataset := by
          simp only [flattenDatasetResults]
          rw [if_neg h]
          simp only [hg]
          rw [if_neg ht]
        rw [h1, h2, h3, foldDatasetsE_eq, List.nil_append]

/-- Counterexample to C4 as stated: a well-formed JSON document whose
results array contains a `null` element makes the source
`flattenDatasetResults` throw a TypeError at `result.file` instead of
returning a list. -/
theorem flattenDatasetResults_throws_cex :
    flattenDatasetResultsE (Json.obj [("dataset_results", Json.obj
      [("datasets/mmlu", Json.obj [("results", Json.arr [Json.null])])])]) =
      Except.error () := rfl

/-- C5 (amended): a non-`null` entry of a dataset's results list never
throws: it contributes exactly one flat record if and only if its `file`
field is a string and its `accuracy_mean` field is a number, and any
other non-`null` entry is silently skipped; either way the remaining
entries keep being processed.  A `null` entry instead throws a TypeError
at `result.file`, aborting the whole flatten. -/
theorem processResultsE_entry_contribution (normalizedDataset : String)
    (entry : Json) (rest : List Json) (acc : List CategoryResult)
    (hnn : isNull entry = false) :
    processResultsE normalizedDataset (entry :: rest) acc =
      processResultsE normalizedDataset rest
        (acc ++ (entryRecord normalizedDataset entry).toList) ∧
    ((entryRecord normalizedDataset entry).isSome ↔
      jsTypeofField entry "file" = "string" ∧
      jsTypeofField entry "accuracy_mean" = "number") ∧
    processResultsE normalizedDataset (Json.null :: rest) acc =
      Except.error () := by
  refine ⟨?_, ?_, rfl⟩
  · simp only [processResultsE]
    rw [if_neg (by rw [hnn]; exact Bool.false_ne_true), resultsPush_eq]
  · rcases h1 : getField entry "file" with _ | j1 <;>
      rcases h2 : getField entry "accuracy_mean" with _ | j2 <;>
      first
        | (cases j1 <;> cases j2 <;>
            simp [entryRecord, jsTypeofField, typeofJs, h1, h2])
        | (cases j1 <;> simp [entryRecord, jsTypeofField, typeofJs, h1, h2])
        | (cases j2 <;> simp [entryRecord, jsTypeofField, typeofJs, h1, h2])
        | simp [entryRecord, jsTypeofField, typeofJs, h1, h2]

/-- Witness for C5 (amended) at a concrete conforming entry. -/
theorem processResultsE_entry_contribution_witness :
    isNull c5Entry = false ∧
    (processResultsE "mmlu" [c5Entry] [] =
        processResultsE "mmlu" []
          ([] ++ (entryRecord "mmlu" c5Entry).toList) ∧
      ((entryRecord "mmlu" c5Entry).isSome ↔
        jsTypeofField c5Entry "file" = "string" ∧
        jsTypeofField c5Entry "accuracy_mean" = "number") ∧
      processResultsE "mmlu" [Json.null] [] = Except.error ()) :=
  ⟨rfl, processResultsE_entry_contribution "mmlu" c5Entry [] [] rfl⟩

/-- Counterexample to C5 as stated: a `null` entry is not silently
skipped — the results loop aborts with a TypeError, and the conforming
entry after it is never processed, although the exception-free value
semantics would have produced its record. -/
theorem processResults_skip_claim_cex :
    processResultsE "mmlu" [Json.null, c5Entry] [] = Except.error () ∧
    processResults "mmlu" [Json.null, c5Entry] ≠ [] := by
  constructor
  · rfl
  · intro h
    have h2 : (processResults "mmlu" [Json.null, c5Entry]).length = 1 := rfl
    rw [h] at h2
    exact Nat.one_ne_zero h2.symm

/-- C10: a `NaN` `accuracy_mean` passes the `typeof`-number check, so the
normalizer still emits the record, carrying `accuracy_mean = NaN`, and
keeps processing the rest of the list; no filtering or replacement of
`NaN` happens, and the `NaN` reaches downstream pivot cells, delta rows
and the `reduce`-based averages of `calculateCategoryStats` unchanged. -/
theorem flatten_nan_propagates :
    (∀ (normalizedDataset fileName : String) (rest : List Json),
      processResults normalizedDataset
          (Json.obj [("file", Json.str fileName),
                     ("accuracy_mean", Json.num none)] :: rest) =
        { category := normalizedDataset ++ "/" ++ extractCategory fileName
          file := fileName, accuracy_mean := none, accuracy_std := none } ::
          processResults normalizedDataset rest) ∧
    flattenDatasetResults nanSource.rawData =
      [{ category := "mmlu/anatomy", file := "anatomy_test.csv"
         accuracy_mean := none, accuracy_std := none }] ∧
    buildPivotTable [nanSource] =
      [{ category := "mmlu/anatomy"
         cells := [("model-nan @ 2024-01-01", none)] }] ∧
    calculateDeltas c10BaseSource [nanSource] =
      [{ category := "mmlu/anatomy", baseline := some (1/2), candidate := none
         delta := none, absDelta := none
         candidateLabel := "model-nan @ 2024-01-01" }] ∧
    Discover.calculateCategoryStats [nanSource] =
      [{ category := "Medicine & Health", source := "model-nan @ 2024-01-01"
         avgAccuracy := none, minAccuracy := none, maxAccuracy := none
         count := 1 }] := by
  refine ⟨?_, rfl, rfl, rfl, rfl⟩
  intro nd f rest
  have h : entryRecord nd
      (Json.obj [("file", Json.str f), ("accuracy_mean", Json.num none)]) =
      some { category := nd ++ "/" ++ extractCategory f, file := f
             accuracy_mean := none, accuracy_std := none } := rfl
  rw [processResults_eq_filterMap, processResults_eq_filterMap,
    List.filterMap_cons, h]

/-- C2: `calculateDeltas` emits exactly one delta row per candidate flat
record whose category is present in the baseline's flattened
category-to-accuracy lookup, with `delta = candidate − baseline` and
`absDelta = |delta|`; candidate records without a baseline counterpart,
and baseline categories absent from a candidate, produce no row. -/
theorem calculateDeltas_spec (baselineSource : DataSource)
    (candidateSources : List DataSource) :
    calculateDeltas baselineSource candidateSources =
      candidateSources.flatMap (fun candidate =>
        (flattenDatasetResults candidate.rawData).filterMap (fun r =>
          (alookup r.category (baselineMapOf baselineSource)).map
            (fun baseline =>
              { category := r.category
                baseline := baseline
                candidate := r.accuracy_mean
                delta := jsSub r.accuracy_mean baseline
                absDelta := jsAbs (jsSub r.accuracy_mean baseline)
                candidateLabel := candidateLabelOf candidate }))) := by
  have inner : ∀ (c : DataSource) (acc : List DeltaRow),
      (flattenDatasetResults c.rawData).foldl
        (fun ds r =>
          match alookup r.category (baselineMapOf baselineSource) with
          | some baseline =>
            ds ++ [{ category := r.category
                     baseline := baseline
                     candidate := r.accuracy_mean
                     delta := jsSub r.accuracy_mean baseline
                     absDelta := jsAbs (jsSub r.accuracy_mean baseline)
                     candidateLabel := candidateLabelOf c }]
          | none => ds) acc =
      acc ++ (flattenDatasetResults c.rawData).filterMap (fun r =>
        (alookup r.category (baselineMapOf baselineSource)).map
          (fun baseline =>
            { category := r.category
              baseline := baseline
              candidate := r.accuracy_mean
              delta := jsSub r.accuracy_mean baseline
              absDelta := jsAbs (jsSub r.accuracy_mean baseline)
              candidateLabel := candidateLabelOf c })) := by
    intro c acc
    rw [← flatMap_option_toList]
    refine foldl_extend _ _ ?_ _ acc
    intro ds r
    cases alookup r.category (baselineMapOf baselineSource) <;> simp
  simp only [calculateDeltas]
  rw [foldl_extend _ _ (fun ds c => inner c ds) candidateSources []]
  rw [List.nil_append]

theorem scanRules_mem (rules : List (String × List String)) (name : String) :
    scanRules rules name ∈ "Other" :: rules.map Prod.fst := by
  induction rules with
  | nil => simp [scanRules]
  | cons rule rest ih =>
    unfold scanRules
    by_cases h : ruleMatches name rule
    · simp [h]
    · rw [if_neg (by simp [h])]
      rcases List.mem_cons.mp ih with h1 | h1 <;> simp [h1]

/-- C3: the classifier lowercases its input, scans the fixed ordered rule
table (Computer Science, Mathematics, Medicine & Health, Science, Law &
Government, Humanities & Philosophy, Business & Economics, Social
Sciences, Education, Engineering & Technical, Vocational & Arts,
Languages & Literature, Miscellaneous), returns the label of the first
rule whose substring keyword occurs, `Other` when none matches, and so
always returns exactly one label of the fixed closed set, never empty
(determinism holds because `categorizeTest` is a pure function of its
string argument). -/
theorem categorizeTest_first_match_total (s : String) :
    categorizeTest s = scanRules classifierRules (jsToLower s) ∧
    categorizeTest s ∈ subjectLabels ∧
    categorizeTest s ≠ "" := by
  have h : categorizeTest s = scanRules classifierRules (jsToLower s) := by
    simp only [categorizeTest, classifierRules, scanRules, ruleMatches,
      List.any_cons, List.any_nil, Bool.or_false, Bool.or_assoc]
  refine ⟨h, ?_, ?_⟩
  · rw [h]
    have hm := scanRules_mem classifierRules (jsToLower s)
    simp only [classifierRules, List.map_cons, List.map_nil] at hm
    simp only [subjectLabels]
    simp only [List.mem_cons, List.not_mem_nil, or_false] at hm ⊢
    tauto
  · rw [h]
    intro he
    have hm := scanRules_mem classifierRules (jsToLower s)
    rw [he] at hm
    simp [classifierRules] at hm

theorem charsPrefix_head_eq {a b : Char} {as bs l : List Char}
    (ha : charsPrefix (a :: as) l = true) (hb : charsPrefix (b :: bs) l = true) :
    a = b := by
  cases l with
  | nil => simp [charsPrefix] at ha
  | cons c cs =>
    unfold charsPrefix at ha hb
    by_cases h1 : a = c
    · by_cases h2 : b = c
      · rw [h1, h2]
      · rw [if_neg h2] at hb
        exact absurd hb (by simp)
    · rw [if_neg h1] at ha
      exact absurd ha (by simp)

theorem strEndsWith_head_eq {s p q : String} {a b : Char} {ps qs : List Char}
    (hp : p.data.reverse = a :: ps) (hq : q.data.reverse = b :: qs)
    (hsp : strEndsWith s p = true) (hsq : strEndsWith s q = true) : a = b := by
  unfold strEndsWith at hsp hsq
  rw [hp] at hsp
  rw [hq] at hsq
  exact charsPrefix_head_eq hsp hsq

theorem stripTest_eq (name : String) :
    stripFirstSuffix ["_test.csv", "_test.json", "_test.jsonl"] name =
      replaceTestSuffix name := by
  have l1 : ("_test.csv" : String).data.length = 9 := rfl
  have l2 : ("_test.json" : String).data.length = 10 := rfl
  have l3 : ("_test.jsonl" : String).data.length = 11 := rfl
  by_cases h1 : strEndsWith name "_test.csv" <;>
    by_cases h2 : strEndsWith name "_test.json" <;>
      by_cases h3 : strEndsWith name "_test.jsonl" <;>
        first
          | exact absurd (strEndsWith_head_eq
              (show ("_test.csv" : String).data.reverse = 'v' :: _ from rfl)
              (show ("_test.json" : String).data.reverse = 'n' :: _ from rfl)
              h1 h2) (by decide)
          | exact absurd (strEndsWith_head_eq
              (show ("_test.csv" : String).data.reverse = 'v' :: _ from rfl)
              (show ("_test.jsonl" : String).data.reverse = 'l' :: _ from rfl)
              h1 h3) (by decide)
          | exact absurd (strEndsWith_head_eq
              (show ("_test.json" : String).data.reverse = 'n' :: _ from rfl)
              (show ("_test.jsonl" : String).data.reverse = 'l' :: _ from rfl)
              h2 h3) (by decide)
          | simp [stripFirstSuffix, replaceTestSuffix, List.find?, h1, h2, h3,
              l1, l2, l3]

theorem stripExt_eq (name : String) :
    stripFirstSuffix [".json", ".jsonl", ".csv"] name =
      replaceExtSuffix name := by
  have l1 : (".json" : String).data.length = 5 := rfl
  have l2 : (".jsonl" : String).data.length = 6 := rfl
  have l3 : (".csv" : String).data.length = 4 := rfl
  by_cases h1 : strEndsWith name ".json" <;>
    by_cases h2 : strEndsWith name ".jsonl" <;>
      by_cases h3 : strEndsWith name ".csv" <;>
        first
          | exact absurd (strEndsWith_head_eq
              (show (".json" : String).data.reverse = 'n' :: _ from rfl)
              (show (".jsonl" : String).data.reverse = 'l' :: _ from rfl)
              h1 h2) (by decide)
          | exact absurd (strEndsWith_head_eq
              (show (".json" : String).data.reverse = 'n' :: _ from rfl)
              (show (".csv" : String).data.reverse = 'v' :: _ from rfl)
              h1 h3) (by decide)
          | exact absurd (strEndsWith_head_eq
              (show (".jsonl" : String).data.reverse = 'l' :: _ from rfl)
              (show (".csv" : String).data.reverse = 'v' :: _ from rfl)
              h2 h3) (by decide)
          | simp [stripFirstSuffix, replaceExtSuffix, List.find?, h1, h2, h3,
              l1, l2, l3]

theorem specStem_eq_extractCategory (filename : String) :
    specStem filename = extractCategory filename := by
  unfold specStem extractCategory
  rw [stripTest_eq, stripExt_eq]

theorem entryRecord_category (nd : String) (e : Json) (r : CategoryResult)
    (h : entryRecord nd e = some r) :
    r.category = nd ++ "/" ++ extractCategory r.file := by
  unfold entryRecord at h
  split at h
  · cases h
    rfl
  · exact Option.noConfusion h

/-- C6 counterexample: for an entry whose file name carries a bare `.csv`
extension, the emitted category has the `.csv` stripped, while the
claim's five-suffix stem rule (which omits `.csv`) keeps it. -/
theorem extractCategory_claim_cex :
    (flattenDatasetResults csvDoc).map (fun r => r.category) = ["mmlu/biology"] ∧
    normalizeDatasetKey "datasets/mmlu" ++ "/" ++ claimStem "biology.csv" =
      "mmlu/biology.csv" ∧
    ("mmlu/biology" : String) ≠ "mmlu/biology.csv" :=
  ⟨rfl, rfl, by decide⟩

/-- C6 (amended): every emitted flat record's category equals
`normalizedDataset/stem`, where the dataset key has an exact leading
`datasets/` prefix stripped and the stem is the file's base name first
stripped of one trailing `_test.csv`/`_test.json`/`_test.jsonl` suffix
and then of one trailing `.json`/`.jsonl`/`.csv` suffix; in particular
dataset key `datasets/mmlu` with file `abstract_algebra_test.csv` yields
`mmlu/abstract_algebra`. -/
theorem flatten_category_composition :
    (∀ (doc : Json) (r : CategoryResult), r ∈ flattenDatasetResults doc →
      ∃ datasetKey,
        r.category = normalizeDatasetKey datasetKey ++ "/" ++ specStem r.file) ∧
    normalizeDatasetKey "datasets/mmlu" ++ "/" ++
        specStem "abstract_algebra_test.csv" = "mmlu/abstract_algebra" := by
  constructor
  · intro doc r hr
    unfold flattenDatasetResults at hr
    split at hr
    · simp at hr
    · split at hr
      · simp at hr
      · rename_i datasetResults hdr
        split at hr
        · simp at hr
        · rcases List.mem_flatMap.mp hr with ⟨entry, hent, hre⟩
          simp only [processDataset] at hre
          split at hre
          · simp at hre
          · split at hre
            · rename_i resultsList hres
              rw [processResults_eq_filterMap] at hre
              rcases List.mem_filterMap.mp hre with ⟨e, he, heq⟩
              refine ⟨entry.1, ?_⟩
              rw [specStem_eq_extractCategory]
              exact entryRecord_category _ e r heq
            · simp at hre
  · rfl

/-- Witness for C6: the round-trip record of the `mmluDoc` document. -/
theorem flatten_category_composition_witness :
    ∃ datasetKey,
      mmluRecord.category =
        normalizeDatasetKey datasetKey ++ "/" ++ specStem mmluRecord.file :=
  flatten_category_composition.1 mmluDoc mmluRecord
    (by rw [show flattenDatasetResults mmluDoc = [mmluRecord] from rfl]
        exact List.mem_cons_self _ _)

theorem alookup_mapSet_self {α : Type} (m : List (String × α)) (k : String) (v : α) :
    alookup k (mapSet m k v) = some v := by
  induction m with
  | nil => simp [mapSet, alookup]
  | cons p rest ih =>
    obtain ⟨k1, w⟩ := p
    unfold mapSet
    by_cases h : k1 = k
    · rw [if_pos h]
      simp [alookup]
    · rw [if_neg h]
      unfold alookup
      rw [if_neg h]
      exact ih

theorem alookup_mapSet_ne {α : Type} (m : List (String × α)) (k k2 : String) (v : α)
    (h : k2 ≠ k) : alookup k2 (mapSet m k v) = alookup k2 m := by
  induction m with
  | nil => simp [mapSet, alookup, Ne.symm h]
  | cons p rest ih =>
    obtain ⟨k1, w⟩ := p
    unfold mapSet
    by_cases h1 : k1 = k
    · rw [if_pos h1]
      unfold alookup
      rw [if_neg (Ne.symm h), if_neg (h1 ▸ Ne.symm h)]
    · rw [if_neg h1]
      unfold alookup
      by_cases h2 : k1 = k2
      · rw [if_pos h2, if_pos h2]
      · rw [if_neg h2, if_neg h2]
        exact ih

theorem mapSet_keys {α : Type} (m : List (String × α)) (k : String) (v : α) :
    (mapSet m k v).map Prod.fst =
      if k ∈ m.map Prod.fst then m.map Prod.fst else m.map Prod.fst ++ [k] := by
  induction m with
  | nil => simp [mapSet]
  | cons p rest ih =>
    obtain ⟨k1, w⟩ := p
    unfold mapSet
    by_cases h1 : k1 = k
    · rw [if_pos h1]
      simp [h1]
    · rw [if_neg h1]
      by_cases hm : k ∈ rest.map Prod.fst
      · simp [hm, Ne.symm h1, ih]
      · simp [hm, Ne.symm h1, ih]

theorem mapSet_keys_nodup {α : Type} (m : List (String × α)) (k : String) (v : α)
    (h : (m.map Prod.fst).Nodup) : ((mapSet m k v).map Prod.fst).Nodup := by
  rw [mapSet_keys]
  by_cases hm : k ∈ m.map Prod.fst
  · rwa [if_pos hm]
  · rw [if_neg hm]
    simp [List.nodup_append, h, hm]

theorem mapSet_fresh {α : Type} (m : List (String × α)) (k : String) (v : α)
    (h : k ∉ m.map Prod.fst) : mapSet m k v = m ++ [(k, v)] := by
  induction m with
  | nil => simp [mapSet]
  | cons p rest ih =>
    obtain ⟨k1, w⟩ := p
    unfold mapSet
    have h1 : k1 ≠ k := by
      intro hh
      exact h (by simp [hh])
    rw [if_neg h1, ih (fun hh => h (by simp [hh]))]
    simp

theorem nodup_map_mem_eq {α β : Type} (f : α → β) (l : List α)
    (h : (l.map f).Nodup) (a b : α) (ha : a ∈ l) (hb : b ∈ l) (hf : f a = f b) :
    a = b := by
  induction l with
  | nil => cases ha
  | cons x xs ih =>
    rw [List.map_cons, List.nodup_cons] at h
    rcases List.mem_cons.mp ha with rfl | ha2
    · rcases List.mem_cons.mp hb with rfl | hb2
      · rfl
      · exact absurd (hf ▸ List.mem_map_of_mem f hb2) h.1
    · rcases List.mem_cons.mp hb with rfl | hb2
      · exact absurd (hf ▸ List.mem_map_of_mem f ha2) h.1
      · exact ih h.2 ha2 hb2

theorem pivotUpsert_cats (rows : List PivotRow) (cat label : String) (v : JsNum) :
    (pivotUpsert rows cat label v).map (fun row => row.category) =
      if cat ∈ rows.map (fun row => row.category) then
        rows.map (fun row => row.category)
      else rows.map (fun row => row.category) ++ [cat] := by
  induction rows with
  | nil => simp [pivotUpsert]
  | cons row rest ih =>
    unfold pivotUpsert
    by_cases h : row.category = cat
    · rw [if_pos h]
      simp [h]
    · rw [if_neg h]
      by_cases hm : cat ∈ rest.map (fun row => row.category)
      · simp [hm, Ne.symm h, ih]
      · simp [hm, Ne.symm h, ih]

theorem pivotUpsert_cats_nodup (rows : List PivotRow) (cat label : String)
    (v : JsNum) (h : (rows.map (fun row => row.category)).Nodup) :
    ((pivotUpsert rows cat label v).map (fun row => row.category)).Nodup := by
  rw [pivotUpsert_cats]
  by_cases hm : cat ∈ rows.map (fun row => row.category)
  · rwa [if_pos hm]
  · rw [if_neg hm]
    simp [List.nodup_append, h, hm]

theorem hasCell_upsert_same (rows : List PivotRow) (cat label : String)
    (v : JsNum) (c : String) :
    hasCell (pivotUpsert rows cat label v) label c ↔
      hasCell rows label c ∨ c = cat := by
  induction rows with
  | nil =>
    simp only [pivotUpsert, hasCell, List.not_mem_nil, false_and, exists_false,
      false_or]
    constructor
    · rintro ⟨row2, hm, hcat, hs⟩
      rw [List.mem_singleton] at hm
      subst hm
      exact hcat.symm
    · intro hc
      exact ⟨{ category := cat, cells := [(label, v)] }, List.mem_singleton.mpr rfl,
        hc.symm, by simp [alookup]⟩
  | cons row rest ih =>
    unfold pivotUpsert
    by_cases h : row.category = cat
    · rw [if_pos h]
      simp only [hasCell, List.mem_cons, alookup_mapSet_self]
      constructor
      · rintro ⟨row2, hmem | hmem, hcat, hsome⟩
        · right
          rw [← hcat, hmem, h]
        · exact Or.inl ⟨row2, Or.inr hmem, hcat, hsome⟩
      · rintro (⟨row2, hmem | hmem, hcat, hsome⟩ | hc)
        · refine ⟨{ row with cells := mapSet row.cells label v }, Or.inl rfl, ?_, ?_⟩
          · rw [← hcat, hmem]
          · simp [alookup_mapSet_self]
        · exact ⟨row2, Or.inr hmem, hcat, hsome⟩
        · refine ⟨{ row with cells := mapSet row.cells label v }, Or.inl rfl, ?_, ?_⟩
          · rw [h, hc]
          · simp [alookup_mapSet_self]
    · rw [if_neg h]
      simp only [hasCell, List.mem_cons]
      constructor
      · rintro ⟨row2, hmem | hmem, hcat, hsome⟩
        · exact Or.inl ⟨row2, Or.inl hmem, hcat, hsome⟩
        · rcases (ih).mp ⟨row2, hmem, hcat, hsome⟩ with h1 | h1
          · rcases h1 with ⟨row3, hm3, hc3, hs3⟩
            exact Or.inl ⟨row3, Or.inr hm3, hc3, hs3⟩
          · exact Or.inr h1
      · rintro (⟨row2, hmem | hmem, hcat, hsome⟩ | hc)
        · exact ⟨row2, Or.inl hmem, hcat, hsome⟩
        · rcases (ih).mpr (Or.inl ⟨row2, hmem, hcat, hsome⟩) with ⟨row3, hm3, hc3, hs3⟩
          exact ⟨row3, Or.inr hm3, hc3, hs3⟩
        · rcases (ih).mpr (Or.inr hc) with ⟨row3, hm3, hc3, hs3⟩
          exact ⟨row3, Or.inr hm3, hc3, hs3⟩

theorem hasCell_upsert_other (rows : List PivotRow) (cat label lab : String)
    (v : JsNum) (c : String) (h : lab ≠ label) :
    hasCell (pivotUpsert rows cat label v) lab c ↔ hasCell rows lab c := by
  induction rows with
  | nil =>
    simp only [pivotUpsert, hasCell, List.mem_singleton, List.not_mem_nil,
      false_and, exists_false, iff_false, not_exists, exists_eq_left, alookup]
    intro hcontra
    rcases hcontra with ⟨h1, h2⟩
    rw [if_neg (Ne.symm h)] at h2
    simp at h2
  | cons row rest ih =>
    unfold pivotUpsert
    by_cases hc : row.category = cat
    · rw [if_pos hc]
      simp only [hasCell, List.mem_cons]
      constructor
      · rintro ⟨row2, hmem | hmem, hcat, hsome⟩
        · refine ⟨row, Or.inl rfl, ?_, ?_⟩
          · rw [← hcat, hmem]
          · rwa [hmem, alookup_mapSet_ne _ _ _ _ h] at hsome
        · exact ⟨row2, Or.inr hmem, hcat, hsome⟩
      · rintro ⟨row2, hmem | hmem, hcat, hsome⟩
        · refine ⟨{ row with cells := mapSet row.cells label v }, Or.inl rfl, ?_, ?_⟩
          · rw [← hcat, hmem]
          · rw [alookup_mapSet_ne _ _ _ _ h]
            rwa [hmem] at hsome
        · exact ⟨row2, Or.inr hmem, hcat, hsome⟩
    · rw [if_neg hc]
      simp only [hasCell, List.mem_cons]
      constructor
      · rintro ⟨row2, hmem | hmem, hcat, hsome⟩
        · exact ⟨row2, Or.inl hmem, hcat, hsome⟩
        · rcases ih.mp ⟨row2, hmem, hcat, hsome⟩ with ⟨row3, hm3, hc3, hs3⟩
          exact ⟨row3, Or.inr hm3, hc3, hs3⟩
      · rintro ⟨row2, hmem | hmem, hcat, hsome⟩
        · exact ⟨row2, Or.inl hmem, hcat, hsome⟩
        · rcases ih.mpr ⟨row2, hmem, hcat, hsome⟩ with ⟨row3, hm3, hc3, hs3⟩
          exact ⟨row3, Or.inr hm3, hc3, hs3⟩

theorem cats_innerFold (results : List CategoryResult) (label : String) :
    ∀ (cm : List PivotRow) (c : String),
      (c ∈ (results.foldl
          (fun cm2 r => pivotUpsert cm2 r.category label r.accuracy_mean) cm).map
          (fun row => row.category)) ↔
        c ∈ cm.map (fun row => row.category) ∨
          c ∈ results.map (fun r => r.category) := by
  induction results with
  | nil => intro cm c; simp
  | cons r rs ih =>
    intro cm c
    rw [List.foldl_cons, ih]
    rw [pivotUpsert_cats]
    by_cases hm : r.category ∈ cm.map (fun row => row.category)
    · rw [if_pos hm]
      simp only [List.map_cons, List.mem_cons]
      constructor
      · rintro (h1 | h1)
        · exact Or.inl h1
        · exact Or.inr (Or.inr h1)
      · rintro (h1 | h1 | h1)
        · exact Or.inl h1
        · exact Or.inl (h1 ▸ hm)
        · exact Or.inr h1
    · rw [if_neg hm]
      simp only [List.mem_append, List.mem_singleton, List.map_cons,
        List.mem_cons]
      tauto

theorem nodup_innerFold (results : List CategoryResult) (label : String) :
    ∀ cm : List PivotRow,
      (cm.map (fun row => row.category)).Nodup →
      ((results.foldl
          (fun cm2 r => pivotUpsert cm2 r.category label r.accuracy_mean) cm).map
          (fun row => row.category)).Nodup := by
  induction results with
  | nil => intro cm h; simpa using h
  | cons r rs ih =>
    intro cm h
    rw [List.foldl_cons]
    exact ih _ (pivotUpsert_cats_nodup cm r.category label r.accuracy_mean h)

theorem hasCell_innerFold_same (results : List CategoryResult) (label : String) :
    ∀ (cm : List PivotRow) (c : String),
      hasCell (results.foldl
          (fun cm2 r => pivotUpsert cm2 r.category label r.accuracy_mean) cm)
          label c ↔
        hasCell cm label c ∨ c ∈ results.map (fun r => r.category) := by
  induction results with
  | nil => intro cm c; simp
  | cons r rs ih =>
    intro cm c
    rw [List.foldl_cons, ih, hasCell_upsert_same]
    simp only [List.map_cons, List.mem_cons]
    tauto

theorem hasCell_innerFold_other (results : List CategoryResult)
    (label lab : String) (h : lab ≠ label) :
    ∀ (cm : List PivotRow) (c : String),
      hasCell (results.foldl
          (fun cm2 r => pivotUpsert cm2 r.category label r.accuracy_mean) cm)
          lab c ↔ hasCell cm lab c := by
  induction results with
  | nil => intro cm c; simp
  | cons r rs ih =>
    intro cm c
    rw [List.foldl_cons, ih, hasCell_upsert_other _ _ _ _ _ _ h]

theorem pivot_fold_aux :
    ∀ (rest processed : List DataSource) (cm : List PivotRow),
      ((processed ++ rest).map pivotSourceLabel).Nodup →
      (cm.map (fun row => row.category)).Nodup →
      (∀ c, c ∈ cm.map (fun row => row.category) ↔
        ∃ s ∈ processed, c ∈ sourceCategories s) →
      (∀ s ∈ processed, ∀ c,
        hasCell cm (pivotSourceLabel s) c ↔ c ∈ sourceCategories s) →
      (∀ lab, lab ∉ processed.map pivotSourceLabel → ∀ c, ¬ hasCell cm lab c) →
      (((rest.foldl (fun categoryMap source =>
          (flattenDatasetResults source.rawData).foldl
            (fun cm2 r => pivotUpsert cm2 r.category (pivotSourceLabel source)
              r.accuracy_mean) categoryMap) cm).map (fun row => row.category)).Nodup ∧
       (∀ c, c ∈ (rest.foldl (fun categoryMap source =>
          (flattenDatasetResults source.rawData).foldl
            (fun cm2 r => pivotUpsert cm2 r.category (pivotSourceLabel source)
              r.accuracy_mean) categoryMap) cm).map (fun row => row.category) ↔
         ∃ s ∈ processed ++ rest, c ∈ sourceCategories s) ∧
       (∀ s ∈ processed ++ rest, ∀ c,
         hasCell (rest.foldl (fun categoryMap source =>
          (flattenDatasetResults source.rawData).foldl
            (fun cm2 r => pivotUpsert cm2 r.category (pivotSourceLabel source)
              r.accuracy_mean) categoryMap) cm) (pivotSourceLabel s) c ↔
           c ∈ sourceCategories s)) := by
  intro rest
  induction rest with
  | nil =>
    intro processed cm hlab hnd hcats hdone hfresh
    refine ⟨hnd, ?_, ?_⟩
    · intro c
      rw [List.append_nil]
      exact hcats c
    · intro s hs c
      rw [List.append_nil] at hs
      exact hdone s hs c
  | cons t ts ih =>
    intro processed cm hlab hnd hcats hdone hfresh
    rw [List.foldl_cons]
    have heq : processed ++ t :: ts = (processed ++ [t]) ++ ts := by
      rw [List.append_assoc, List.singleton_append]
    rw [heq] at hlab ⊢
    -- distinctness facts about the label of t
    have hlab2 : ((processed ++ t :: ts).map pivotSourceLabel).Nodup := by
      rw [heq]; exact hlab
    have hdisj :
        pivotSourceLabel t ∉ processed.map pivotSourceLabel := by
      rw [List.map_append] at hlab2
      have h3 := (List.nodup_append.mp hlab2).2.2
      intro hmem
      exact h3 hmem (by simp)
    refine ih (processed ++ [t]) _ hlab ?_ ?_ ?_ ?_
    · exact nodup_innerFold _ _ _ hnd
    · intro c
      rw [cats_innerFold]
      constructor
      · rintro (h1 | h1)
        · rcases (hcats c).mp h1 with ⟨s, hs, hc⟩
          exact ⟨s, List.mem_append_left _ hs, hc⟩
        · exact ⟨t, List.mem_append_right _ (by simp), h1⟩
      · rintro ⟨s, hs, hc⟩
        rcases List.mem_append.mp hs with hs1 | hs1
        · exact Or.inl ((hcats c).mpr ⟨s, hs1, hc⟩)
        · rw [List.mem_singleton] at hs1
          subst hs1
          exact Or.inr hc
    · intro s hs c
      rcases List.mem_append.mp hs with hs1 | hs1
      · have hne : pivotSourceLabel s ≠ pivotSourceLabel t := by
          intro hh
          exact hdisj (hh ▸ List.mem_map_of_mem pivotSourceLabel hs1)
        rw [hasCell_innerFold_other _ _ _ hne]
        exact hdone s hs1 c
      · rw [List.mem_singleton] at hs1
        subst hs1
        rw [hasCell_innerFold_same]
        constructor
        · rintro (h1 | h1)
          · exact absurd h1 (hfresh _ hdisj c)
          · exact h1
        · intro h1
          exact Or.inr h1
    · intro lab hlabmem c
      have hne : lab ≠ pivotSourceLabel t := by
        intro hh
        exact hlabmem (by rw [List.map_append]; exact List.mem_append_right _ (by simp [hh]))
      have hnp : lab ∉ processed.map pivotSourceLabel := by
        intro hh
        exact hlabmem (by rw [List.map_append]; exact List.mem_append_left _ hh)
      rw [hasCell_innerFold_other _ _ _ hne]
      exact hfresh lab hnp c

/-- C9 (amended): `buildPivotTable` returns exactly one row per distinct
flat-record category occurring across the sources, and — provided the
sources' display labels are pairwise distinct — a row has a cell under a
source's display label if and only if that source's flattened records
contain that category; categories a source lacks stay absent from its
column (when two sources share a display label they share one column, so
a source can show a cell for a category only its label-mate has). -/
theorem buildPivotTable_rows_and_cells (sources : List DataSource)
    (hlabels : (sources.map pivotSourceLabel).Nodup) :
    ((buildPivotTable sources).map (fun row => row.category)).Nodup ∧
    (∀ c, (∃ row ∈ buildPivotTable sources, row.category = c) ↔
      ∃ s ∈ sources, c ∈ sourceCategories s) ∧
    (∀ s ∈ sources, ∀ row ∈ buildPivotTable sources,
      ((alookup (pivotSourceLabel s) row.cells).isSome = true ↔
        row.category ∈ sourceCategories s)) := by
  have hb : buildPivotTable sources = sources.foldl (fun categoryMap source =>
      (flattenDatasetResults source.rawData).foldl
        (fun cm2 r => pivotUpsert cm2 r.category (pivotSourceLabel source)
          r.accuracy_mean) categoryMap) [] := rfl
  have haux := pivot_fold_aux sources [] []
    (by simpa using hlabels) (by simp) (by simp) (by simp)
    (by intro lab h c; simp [hasCell])
  rw [List.nil_append] at haux
  refine ⟨by rw [hb]; exact haux.1, ?_, ?_⟩
  · intro c
    rw [hb, ← haux.2.1 c]
    constructor
    · rintro ⟨row, hm, hc⟩
      exact List.mem_map.mpr ⟨row, hm, hc⟩
    · intro h1
      rcases List.mem_map.mp h1 with ⟨row, hm, hc⟩
      exact ⟨row, hm, hc⟩
  · intro s hs row hrow
    rw [hb] at hrow
    constructor
    · intro h1
      exact ((haux.2.2 s hs row.category).mp ⟨row, hrow, rfl, h1⟩)
    · intro h1
      rcases (haux.2.2 s hs row.category).mpr h1 with ⟨row2, hm2, hc2, hs2⟩
      have : row2 = row := by
        refine nodup_map_mem_eq (fun r => r.category) _ haux.1 row2 row hm2 hrow hc2
      rwa [this] at hs2

/-- C9 counterexample: with two sources sharing the display label `m @ t`
(same model name, variance, timestamp and official flag, distinct ids),
the pivot row for `mmlu/anatomy` has a cell under the second source's
display label even though that source's flattened records do not contain
the category, falsifying the claim's per-source iff. -/
theorem buildPivotTable_label_cell_cex :
    pivotCexA.id ≠ pivotCexB.id ∧
    pivotSourceLabel pivotCexB = "m @ t" ∧
    buildPivotTable [pivotCexA, pivotCexB] =
      [{ category := "mmlu/anatomy", cells := [("m @ t", some (1/2))] }] ∧
    (alookup (pivotSourceLabel pivotCexB)
      [(("m @ t" : String), (some (1/2) : JsNum))]).isSome = true ∧
    sourceCategories pivotCexB = [] :=
  ⟨by decide, rfl, rfl, rfl, rfl⟩

/-- Witness for C9 at two sources with distinct display labels. -/
theorem buildPivotTable_rows_and_cells_witness :
    ((buildPivotTable [pivotWitA, pivotWitB]).map (fun row => row.category)).Nodup ∧
    (∀ c, (∃ row ∈ buildPivotTable [pivotWitA, pivotWitB], row.category = c) ↔
      ∃ s ∈ [pivotWitA, pivotWitB], c ∈ sourceCategories s) ∧
    (∀ s ∈ [pivotWitA, pivotWitB], ∀ row ∈ buildPivotTable [pivotWitA, pivotWitB],
      ((alookup (pivotSourceLabel s) row.cells).isSome = true ↔
        row.category ∈ sourceCategories s)) :=
  buildPivotTable_rows_and_cells [pivotWitA, pivotWitB] (by decide)

theorem mapSet_keys_mem {α : Type} (m : List (String × α)) (k : String) (v : α)
    (k2 : String) (h : k2 ∈ (mapSet m k v).map Prod.fst) :
    k2 ∈ m.map Prod.fst ∨ k2 = k := by
  rw [mapSet_keys] at h
  by_cases hm : k ∈ m.map Prod.fst
  · rw [if_pos hm] at h
    exact Or.inl h
  · rw [if_neg hm] at h
    rcases List.mem_append.mp h with h1 | h1
    · exact Or.inl h1
    · exact Or.inr (List.mem_singleton.mp h1)

theorem updateCat_pres (P : CategoryStats → Prop)
    (cats : List (String × CategoryStats)) (cn : String)
    (f : CategoryStats → CategoryStats)
    (hf : ∀ st, P st → P (f st)) (hemp : P (f (emptyStats cn)))
    (h : ∀ p ∈ cats, P p.2) :
    ∀ p ∈ updateCat cats cn f, P p.2 := by
  induction cats with
  | nil =>
    intro p hp
    unfold updateCat at hp
    rcases List.mem_singleton.mp hp with rfl
    exact hemp
  | cons q rest ih =>
    intro p hp
    obtain ⟨k, st⟩ := q
    unfold updateCat at hp
    by_cases hk : k = cn
    · rw [if_pos hk] at hp
      rcases List.mem_cons.mp hp with rfl | hp2
      · exact hf st (h _ (List.mem_cons_self _ _))
      · exact h p (List.mem_cons_of_mem _ hp2)
    · rw [if_neg hk] at hp
      rcases List.mem_cons.mp hp with rfl | hp2
      · exact h _ (List.mem_cons_self _ _)
      · exact ih (fun r hr => h r (List.mem_cons_of_mem _ hr)) p hp2

theorem processSource_pres (P : CategoryStats → Prop)
    (hP : ∀ st tests2, P st → P { st with tests := tests2 })
    (hemp : ∀ cn tests2, P { emptyStats cn with tests := tests2 })
    (s : DataSource) (cats : List (String × CategoryStats))
    (h : ∀ p ∈ cats, P p.2) :
    ∀ p ∈ processSource cats s, P p.2 := by
  unfold processSource
  generalize groupByCategory (flattenDatasetResults s.rawData) = g
  induction g generalizing cats with
  | nil => exact h
  | cons q rest ih =>
    rw [List.foldl_cons]
    exact ih _ (updateCat_pres P cats q.1 _
      (fun st hst => hP st _ hst) (hemp q.1 _) h)

theorem phase1_pres (P : CategoryStats → Prop)
    (hP : ∀ st tests2, P st → P { st with tests := tests2 })
    (hemp : ∀ cn tests2, P { emptyStats cn with tests := tests2 })
    (sources : List DataSource) :
    ∀ cats, (∀ p ∈ cats, P p.2) →
      ∀ p ∈ sources.foldl processSource cats, P p.2 := by
  induction sources with
  | nil => intro cats h; exact h
  | cons s rest ih =>
    intro cats h
    rw [List.foldl_cons]
    exact ih _ (processSource_pres P hP hemp s cats h)

theorem perModelStep_maps (st : CategoryStats) (source : DataSource) :
    ((perModelStep st source).avgPerModel = st.avgPerModel ∧
     (perModelStep st source).minPerModel = st.minPerModel ∧
     (perModelStep st source).maxPerModel = st.maxPerModel) ∨
    ((perModelStep st source).avgPerModel =
        mapSet st.avgPerModel source.modelName
          (d3mean (modelAccuracies st.tests source.modelName)) ∧
     (perModelStep st source).minPerModel =
        mapSet st.minPerModel source.modelName
          (d3min (modelAccuracies st.tests source.modelName)) ∧
     (perModelStep st source).maxPerModel =
        mapSet st.maxPerModel source.modelName
          (d3max (modelAccuracies st.tests source.modelName))) := by
  unfold perModelStep
  by_cases h : (modelAccuracies st.tests source.modelName).length > 0
  · right
    rw [if_pos h]
    exact ⟨rfl, rfl, rfl⟩
  · left
    rw [if_neg h]
    exact ⟨rfl, rfl, rfl⟩

theorem perModelFold_keys (sources : List DataSource) :
    ∀ acc : CategoryStats,
      (∀ k, k ∈ ((sources.foldl perModelStep acc).avgPerModel.map Prod.fst) →
         k ∈ acc.avgPerModel.map Prod.fst ∨
           k ∈ sources.map (fun s => s.modelName)) ∧
      (∀ k, k ∈ ((sources.foldl perModelStep acc).minPerModel.map Prod.fst) →
         k ∈ acc.minPerModel.map Prod.fst ∨
           k ∈ sources.map (fun s => s.modelName)) ∧
      (∀ k, k ∈ ((sources.foldl perModelStep acc).maxPerModel.map Prod.fst) →
         k ∈ acc.maxPerModel.map Prod.fst ∨
           k ∈ sources.map (fun s => s.modelName)) ∧
      ((acc.avgPerModel.map Prod.fst).Nodup →
        (((sources.foldl perModelStep acc).avgPerModel).map Prod.fst).Nodup) ∧
      ((acc.minPerModel.map Prod.fst).Nodup →
        (((sources.foldl perModelStep acc).minPerModel).map Prod.fst).Nodup) ∧
      ((acc.maxPerModel.map Prod.fst).Nodup →
        (((sources.foldl perModelStep acc).maxPerModel).map Prod.fst).Nodup) := by
  induction sources with
  | nil =>
    intro acc
    exact ⟨fun k h => Or.inl h, fun k h => Or.inl h, fun k h => Or.inl h,
      fun h => h, fun h => h, fun h => h⟩
  | cons s rest ih =>
    intro acc
    rw [List.foldl_cons]
    obtain ⟨ih1, ih2, ih3, ih4, ih5, ih6⟩ := ih (perModelStep acc s)
    have hstep := perModelStep_maps acc s
    refine ⟨?_, ?_, ?_, ?_, ?_, ?_⟩
    · intro k hk
      rcases ih1 k hk with h1 | h1
      · rcases hstep with ⟨ha, _, _⟩ | ⟨ha, _, _⟩
        · exact Or.inl (ha ▸ h1)
        · rw [ha] at h1
          rcases mapSet_keys_mem _ _ _ _ h1 with h2 | h2
          · exact Or.inl h2
          · exact Or.inr (by simp [h2])
      · exact Or.inr (by simp [h1])
    · intro k hk
      rcases ih2 k hk with h1 | h1
      · rcases hstep with ⟨_, ha, _⟩ | ⟨_, ha, _⟩
        · exact Or.inl (ha ▸ h1)
        · rw [ha] at h1
          rcases mapSet_keys_mem _ _ _ _ h1 with h2 | h2
          · exact Or.inl h2
          · exact Or.inr (by simp [h2])
      · exact Or.inr (by simp [h1])
    · intro k hk
      rcases ih3 k hk with h1 | h1
      · rcases hstep with ⟨_, _, ha⟩ | ⟨_, _, ha⟩
        · exact Or.inl (ha ▸ h1)
        · rw [ha] at h1
          rcases mapSet_keys_mem _ _ _ _ h1 with h2 | h2
          · exact Or.inl h2
          · exact Or.inr (by simp [h2])
      · exact Or.inr (by simp [h1])
    · intro hnd
      refine ih4 ?_
      rcases hstep with ⟨ha, _, _⟩ | ⟨ha, _, _⟩
      · exact ha ▸ hnd
      · rw [ha]
        exact mapSet_keys_nodup _ _ _ hnd
    · intro hnd
      refine ih5 ?_
      rcases hstep with ⟨_, ha, _⟩ | ⟨_, ha, _⟩
      · exact ha ▸ hnd
      · rw [ha]
        exact mapSet_keys_nodup _ _ _ hnd
    · intro hnd
      refine ih6 ?_
      rcases hstep with ⟨_, _, ha⟩ | ⟨_, _, ha⟩
      · exact ha ▸ hnd
      · rw [ha]
        exact mapSet_keys_nodup _ _ _ hnd

theorem finalizeStat_maps (st : CategoryStats) :
    (finalizeStat st).avgPerModel = st.avgPerModel ∧
    (finalizeStat st).minPerModel = st.minPerModel ∧
    (finalizeStat st).maxPerModel = st.maxPerModel := by
  simp only [finalizeStat]
  by_cases h : (st.avgPerModel.map (fun p => p.2)).length > 0
  · rw [if_pos h]
    exact ⟨rfl, rfl, rfl⟩
  · rw [if_neg h]
    exact ⟨rfl, rfl, rfl⟩

/-- C8 (amended): the per-source statistics maps of every CategoryStats
are keyed by model name, not by source id: their keys are drawn from the
sources' model names, without duplicates, so two distinct sources sharing
a model name share a single per-model entry (and contribute one term to
the overall statistics). -/
theorem categoryStats_perSource_keys_modelNames (sources : List DataSource)
    (stat : CategoryStats) (hmem : stat ∈ categoryStats sources) :
    ((stat.avgPerModel.map Prod.fst).Nodup ∧
      ∀ k ∈ stat.avgPerModel.map Prod.fst,
        k ∈ sources.map (fun s => s.modelName)) ∧
    ((stat.minPerModel.map Prod.fst).Nodup ∧
      ∀ k ∈ stat.minPerModel.map Prod.fst,
        k ∈ sources.map (fun s => s.modelName)) ∧
    ((stat.maxPerModel.map Prod.fst).Nodup ∧
      ∀ k ∈ stat.maxPerModel.map Prod.fst,
        k ∈ sources.map (fun s => s.modelName)) := by
  unfold categoryStats at hmem
  rcases List.mem_map.mp hmem with ⟨p, hp, rfl⟩
  obtain ⟨ha, hm, hx⟩ := finalizeStat_maps (computePerModel sources p.2)
  rw [ha, hm, hx]
  have hempty := phase1_pres
    (fun st => st.avgPerModel = [] ∧ st.minPerModel = [] ∧ st.maxPerModel = [])
    (fun st t2 h => h) (fun cn t2 => ⟨rfl, rfl, rfl⟩) sources []
    (by intro p hp; cases hp) p hp
  unfold computePerModel
  obtain ⟨k1, k2, k3, n1, n2, n3⟩ :=
    perModelFold_keys sources { p.2 with testCount := p.2.tests.length }
  have e1 : ({ p.2 with testCount := p.2.tests.length } :
      CategoryStats).avgPerModel = [] := hempty.1
  have e2 : ({ p.2 with testCount := p.2.tests.length } :
      CategoryStats).minPerModel = [] := hempty.2.1
  have e3 : ({ p.2 with testCount := p.2.tests.length } :
      CategoryStats).maxPerModel = [] := hempty.2.2
  refine ⟨⟨n1 (by rw [e1]; exact List.nodup_nil), ?_⟩,
    ⟨n2 (by rw [e2]; exact List.nodup_nil), ?_⟩,
    ⟨n3 (by rw [e3]; exact List.nodup_nil), ?_⟩⟩
  · intro k hk
    rcases k1 k hk with h1 | h1
    · rw [e1] at h1
      cases h1
    · exact h1
  · intro k hk
    rcases k2 k hk with h1 | h1
    · rw [e2] at h1
      cases h1
    · exact h1
  · intro k hk
    rcases k3 k hk with h1 | h1
    · rw [e3] at h1
      cases h1
    · exact h1

/-- C8 counterexample: two distinct sources (distinct ids) sharing the
model name `m` produce a single Mathematics stats entry whose
`avgPerModel` map has the one key `m` — not separate per-source entries
keyed by source id. -/
theorem categoryStats_keyed_by_id_cex :
    aggShareA.id ≠ aggShareB.id ∧
    aggShareA.modelName = aggShareB.modelName ∧
    (categoryStats [aggShareA, aggShareB]).length = 1 ∧
    ((categoryStats [aggShareA, aggShareB]).headD (emptyStats "")).name =
      "Mathematics" ∧
    ((categoryStats [aggShareA, aggShareB]).headD
        (emptyStats "")).avgPerModel.map Prod.fst = ["m"] :=
  ⟨by decide, rfl, rfl, rfl, rfl⟩

/-- Witness for C8 at two concrete sources. -/
theorem categoryStats_perSource_keys_modelNames_witness :
    ((((categoryStats [aggWitA, aggWitB]).headD
          (emptyStats "")).avgPerModel.map Prod.fst).Nodup ∧
      ∀ k ∈ ((categoryStats [aggWitA, aggWitB]).headD
          (emptyStats "")).avgPerModel.map Prod.fst,
        k ∈ [aggWitA, aggWitB].map (fun s => s.modelName)) ∧
    ((((categoryStats [aggWitA, aggWitB]).headD
          (emptyStats "")).minPerModel.map Prod.fst).Nodup ∧
      ∀ k ∈ ((categoryStats [aggWitA, aggWitB]).headD
          (emptyStats "")).minPerModel.map Prod.fst,
        k ∈ [aggWitA, aggWitB].map (fun s => s.modelName)) ∧
    ((((categoryStats [aggWitA, aggWitB]).headD
          (emptyStats "")).maxPerModel.map Prod.fst).Nodup ∧
      ∀ k ∈ ((categoryStats [aggWitA, aggWitB]).headD
          (emptyStats "")).maxPerModel.map Prod.fst,
        k ∈ [aggWitA, aggWitB].map (fun s => s.modelName)) :=
  categoryStats_perSource_keys_modelNames [aggWitA, aggWitB]
    ((categoryStats [aggWitA, aggWitB]).headD (emptyStats ""))
    (headD_mem _ _ (by
      intro h
      have h2 : (categoryStats [aggWitA, aggWitB]).length = 0 := by
        rw [h]
        rfl
      rw [show (categoryStats [aggWitA, aggWitB]).length = 1 from rfl] at h2
      exact Nat.one_ne_zero h2))

theorem finalizeStat_variance (st : CategoryStats)
    (h : (st.avgPerModel.map (fun p => p.2)).length > 0) :
    (finalizeStat st).variance =
      jsDivLen ((st.avgPerModel.map (fun p => p.2)).foldl
        (fun sum val => jsAdd sum (jsPow2 (jsSub val
          (d3mean (st.avgPerModel.map (fun p => p.2)))))) (some 0))
        (st.avgPerModel.map (fun p => p.2)).length := by
  simp only [finalizeStat]
  rw [if_pos h]

theorem map_snd_eq_map_some {α β : Type} (m : List (β × Option α))
    (h : ∀ p ∈ m, (p.2).isSome = true) :
    m.map (fun p => p.2) = (m.filterMap (fun p => p.2)).map some := by
  induction m with
  | nil => rfl
  | cons p rest ih =>
    rcases Option.isSome_iff_exists.mp (h p (List.mem_cons_self _ _)) with ⟨v, hv⟩
    simp only [List.map_cons, List.filterMap_cons, hv]
    rw [ih (fun q hq => h q (List.mem_cons_of_mem _ hq))]

theorem filterMap_id_map_some {α : Type} (vs : List α) :
    (vs.map some).filterMap id = vs := by
  induction vs with
  | nil => rfl
  | cons v rest ih => simp [ih]

theorem d3mean_map_some (vs : List ℚ) (h : vs ≠ []) :
    d3mean (vs.map some) = some (vs.sum / (vs.length : ℚ)) := by
  unfold d3mean
  rw [filterMap_id_map_some, if_neg (fun hh => h (List.length_eq_zero.mp hh))]

theorem jsDivLen_some (q : ℚ) (n : Nat) (h : n ≠ 0) :
    jsDivLen (some q) n = some (q / (n : ℚ)) := by
  show (if n = 0 then (none : JsNum) else some (q / (n : ℚ))) = some (q / (n : ℚ))
  rw [if_neg h]

theorem foldl_jsAdd_pow_some (vs : List ℚ) (μ : ℚ) :
    ∀ c : ℚ, (vs.map some).foldl
      (fun sum val => jsAdd sum (jsPow2 (jsSub val (some μ)))) (some c) =
      some (c + (vs.map (fun v => (v - μ) ^ 2)).sum) := by
  induction vs with
  | nil => intro c; simp
  | cons v rest ih =>
    intro c
    rw [List.map_cons, List.foldl_cons]
    have hstep : jsAdd (some c) (jsPow2 (jsSub (some v) (some μ))) =
        some (c + (v - μ) ^ 2) := rfl
    rw [hstep, ih]
    simp [add_assoc]

/-- C7: for every category statistics entry with at least one contributing
per-source entry whose per-source averages are all finite, `variance`
equals the population variance of the per-source average accuracies — the
sum of squared deviations from their mean divided by the number N of
contributing per-source entries, not by N−1. -/
theorem categoryStats_variance_population (sources : List DataSource)
    (stat : CategoryStats) (hmem : stat ∈ categoryStats sources)
    (hne : stat.avgPerModel ≠ [])
    (hsome : ∀ p ∈ stat.avgPerModel, (p.2).isSome = true) :
    stat.variance =
      some (popVariance (stat.avgPerModel.filterMap (fun p => p.2))) := by
  unfold categoryStats at hmem
  rcases List.mem_map.mp hmem with ⟨p, hp, rfl⟩
  obtain ⟨ha, hb, hc⟩ := finalizeStat_maps (computePerModel sources p.2)
  rw [ha] at hne hsome ⊢
  have hmapsome : (computePerModel sources p.2).avgPerModel.map (fun p => p.2) =
      ((computePerModel sources p.2).avgPerModel.filterMap
        (fun p => p.2)).map some :=
    map_snd_eq_map_some _ hsome
  have hlen : ((computePerModel sources p.2).avgPerModel.map
      (fun p => p.2)).length > 0 := by
    rw [List.length_map]
    exact List.length_pos.mpr hne
  have hvs_ne : (computePerModel sources p.2).avgPerModel.filterMap
      (fun p => p.2) ≠ [] := by
    intro hh
    rw [hh, List.map_nil] at hmapsome
    rw [hmapsome] at hlen
    simp at hlen
  rw [finalizeStat_variance _ hlen, hmapsome]
  rw [d3mean_map_some _ hvs_ne, foldl_jsAdd_pow_some, List.length_map]
  rw [jsDivLen_some _ _ (fun hh => hvs_ne (List.length_eq_zero.mp hh)), zero_add]
  rfl

/-- Witness for C7 at two concrete sources. -/
theorem categoryStats_variance_population_witness :
    ((categoryStats [aggWitA, aggWitB]).headD (emptyStats "")).variance =
      some (popVariance (((categoryStats [aggWitA, aggWitB]).headD
        (emptyStats "")).avgPerModel.filterMap (fun p => p.2))) :=
  categoryStats_variance_population [aggWitA, aggWitB]
    ((categoryStats [aggWitA, aggWitB]).headD (emptyStats ""))
    (headD_mem _ _ (by
      intro h
      have h2 : (categoryStats [aggWitA, aggWitB]).length = 0 := by
        rw [h]
        rfl
      rw [show (categoryStats [aggWitA, aggWitB]).length = 1 from rfl] at h2
      exact Nat.one_ne_zero h2))
    (by decide) (by decide)

theorem alookup_eq_none_of_not_mem_keys {α : Type} (l : List (String × α))
    (k : String) (h : k ∉ l.map Prod.fst) : alookup k l = none := by
  induction l with
  | nil => rfl
  | cons p rest ih =>
    obtain ⟨k1, v⟩ := p
    unfold alookup
    rw [if_neg (fun hh => h (by simp [hh]))]
    exact ih (fun hh => h (List.mem_cons_of_mem _ hh))

theorem alookup_of_mem_nodup {α : Type} (l : List (String × α)) (k : String)
    (v : α) (hnd : (l.map Prod.fst).Nodup) (hmem : (k, v) ∈ l) :
    alookup k l = some v := by
  induction l with
  | nil => cases hmem
  | cons p rest ih =>
    obtain ⟨k1, w⟩ := p
    rw [List.map_cons, List.nodup_cons] at hnd
    rcases List.mem_cons.mp hmem with heq | hmem2
    · injection heq with h1 h2
      subst h1
      subst h2
      unfold alookup
      rw [if_pos rfl]
    · unfold alookup
      by_cases hk : k1 = k
      · exfalso
        apply hnd.1
        rw [hk]
        have hmm := List.mem_map_of_mem Prod.fst hmem2
        exact hmm
      · rw [if_neg hk]
        exact ih hnd.2 hmem2

theorem alookup_updateCat_self (cats : List (String × CategoryStats))
    (cn : String) (f : CategoryStats → CategoryStats) :
    alookup cn (updateCat cats cn f) =
      some (f ((alookup cn cats).getD (emptyStats cn))) := by
  induction cats with
  | nil => simp [updateCat, alookup]
  | cons p rest ih =>
    obtain ⟨k, st⟩ := p
    unfold updateCat
    by_cases hk : k = cn
    · rw [if_pos hk]
      unfold alookup
      rw [if_pos hk, if_pos hk]
      rfl
    · rw [if_neg hk]
      unfold alookup
      rw [if_neg hk, if_neg hk]
      exact ih

theorem alookup_updateCat_ne (cats : List (String × CategoryStats))
    (cn cn2 : String) (f : CategoryStats → CategoryStats) (h : cn2 ≠ cn) :
    alookup cn2 (updateCat cats cn f) = alookup cn2 cats := by
  induction cats with
  | nil => simp [updateCat, alookup, Ne.symm h]
  | cons p rest ih =>
    obtain ⟨k, st⟩ := p
    unfold updateCat
    by_cases hk : k = cn
    · rw [if_pos hk]
      unfold alookup
      rw [if_neg (hk ▸ Ne.symm h), if_neg (hk ▸ Ne.symm h)]
    · rw [if_neg hk]
      unfold alookup
      by_cases hk2 : k = cn2
      · rw [if_pos hk2, if_pos hk2]
      · rw [if_neg hk2, if_neg hk2]
        exact ih

theorem updateCat_keys_mem (cats : List (String × CategoryStats))
    (cn : String) (f : CategoryStats → CategoryStats) :
    ∀ p ∈ updateCat cats cn f, p.1 ∈ cats.map Prod.fst ∨ p.1 = cn := by
  induction cats with
  | nil =>
    intro p hp
    rcases List.mem_singleton.mp hp with rfl
    exact Or.inr rfl
  | cons q rest ih =>
    intro p hp
    obtain ⟨k, st⟩ := q
    unfold updateCat at hp
    by_cases hk : k = cn
    · rw [if_pos hk] at hp
      rcases List.mem_cons.mp hp with rfl | hp2
      · exact Or.inl (by simp)
      · rcases List.mem_map_of_mem Prod.fst hp2 with hh
        exact Or.inl (List.mem_cons_of_mem _ hh)
    · rw [if_neg hk] at hp
      rcases List.mem_cons.mp hp with rfl | hp2
      · exact Or.inl (by simp)
      · rcases ih p hp2 with h1 | h1
        · exact Or.inl (List.mem_cons_of_mem _ h1)
        · exact Or.inr h1

theorem updateCat_keys (cats : List (String × CategoryStats))
    (cn : String) (f : CategoryStats → CategoryStats) :
    (updateCat cats cn f).map Prod.fst =
      if cn ∈ cats.map Prod.fst then cats.map Prod.fst
      else cats.map Prod.fst ++ [cn] := by
  induction cats with
  | nil => simp [updateCat]
  | cons q rest ih =>
    obtain ⟨k, st⟩ := q
    unfold updateCat
    by_cases hk : k = cn
    · rw [if_pos hk]
      simp [hk]
    · rw [if_neg hk]
      by_cases hm : cn ∈ rest.map Prod.fst
      · simp [hm, Ne.symm hk, ih]
      · simp [hm, Ne.symm hk, ih]

theorem updateCat_keys_nodup (cats : List (String × CategoryStats))
    (cn : String) (f : CategoryStats → CategoryStats)
    (h : (cats.map Prod.fst).Nodup) :
    ((updateCat cats cn f).map Prod.fst).Nodup := by
  rw [updateCat_keys]
  by_cases hm : cn ∈ cats.map Prod.fst
  · rwa [if_pos hm]
  · rw [if_neg hm]
    simp [List.nodup_append, h, hm]

theorem testsAt_updateCat_tests (cats : List (String × CategoryStats))
    (cn cn2 : String) (g : List TestEntry → List TestEntry) :
    testsAt (updateCat cats cn (fun stat => { stat with tests := g stat.tests })) cn2 =
      if cn2 = cn then g (testsAt cats cn2) else testsAt cats cn2 := by
  by_cases h : cn2 = cn
  · rw [if_pos h]
    unfold testsAt
    rw [h, alookup_updateCat_self]
    cases halo : alookup cn cats with
    | none => rfl
    | some st => rfl
  · rw [if_neg h]
    unfold testsAt
    rw [alookup_updateCat_ne _ _ _ _ h]

theorem modelAccuracies_setTestValue_perm (tests : List TestEntry)
    (tn fp ds m : String) (a : JsNum)
    (hno : ∀ t ∈ tests, t.testName = tn → alookup m t.values = none) :
    (modelAccuracies (setTestValue tests tn fp ds m a) m).Perm
      (a :: modelAccuracies tests m) := by
  induction tests with
  | nil =>
    unfold setTestValue modelAccuracies
    simp [alookup]
  | cons t ts ih =>
    unfold setTestValue
    by_cases h : t.testName = tn
    · rw [if_pos h]
      unfold modelAccuracies
      rw [List.filterMap_cons, List.filterMap_cons]
      have h1 : alookup m t.values = none := hno t (List.mem_cons_self _ _) h
      have h2 : alookup m (mapSet t.values m a) = some a := alookup_mapSet_self _ _ _
      simp only [h1, h2]
      exact List.Perm.refl _
    · rw [if_neg h]
      unfold modelAccuracies
      rw [List.filterMap_cons, List.filterMap_cons]
      have ih2 := ih (fun t2 ht2 htn => hno t2 (List.mem_cons_of_mem _ ht2) htn)
      cases hlo : alookup m t.values with
      | none =>
        simp only
        exact ih2
      | some v =>
        simp only
        exact (ih2.cons v).trans (List.Perm.swap a v _)

theorem modelAccuracies_setTestValue_other (tests : List TestEntry)
    (tn fp ds m m2 : String) (a : JsNum) (hm : m2 ≠ m) :
    modelAccuracies (setTestValue tests tn fp ds m a) m2 =
      modelAccuracies tests m2 := by
  induction tests with
  | nil =>
    unfold setTestValue modelAccuracies
    simp [alookup, Ne.symm hm]
  | cons t ts ih =>
    unfold setTestValue
    by_cases h : t.testName = tn
    · rw [if_pos h]
      unfold modelAccuracies
      rw [List.filterMap_cons, List.filterMap_cons]
      rw [alookup_mapSet_ne _ _ _ _ hm]
    · rw [if_neg h]
      unfold modelAccuracies
      rw [List.filterMap_cons, List.filterMap_cons]
      have ih2 : List.filterMap (fun t2 => alookup m2 t2.values)
          (setTestValue ts tn fp ds m a) =
          List.filterMap (fun t2 => alookup m2 t2.values) ts := ih
      rw [ih2]

theorem setTestValue_cond_pres (tests : List TestEntry)
    (tn fp ds m : String) (a : JsNum) (names : List String)
    (h : ∀ t ∈ tests, (alookup m t.values).isSome = true → t.testName ∉ names)
    (htn : tn ∉ names) :
    ∀ t ∈ setTestValue tests tn fp ds m a,
      (alookup m t.values).isSome = true → t.testName ∉ names := by
  induction tests with
  | nil =>
    intro t ht _
    rcases List.mem_singleton.mp ht with rfl
    exact htn
  | cons t0 ts ih =>
    intro t ht hsome
    unfold setTestValue at ht
    by_cases hh : t0.testName = tn
    · rw [if_pos hh] at ht
      rcases List.mem_cons.mp ht with rfl | ht2
      · exact hh ▸ htn
      · exact h t (List.mem_cons_of_mem _ ht2) hsome
    · rw [if_neg hh] at ht
      rcases List.mem_cons.mp ht with rfl | ht2
      · exact h t (List.mem_cons_self _ _) hsome
      · exact ih (fun t2 ht2 hs2 => h t2 (List.mem_cons_of_mem _ ht2) hs2) t ht2 hsome

theorem modelAccuracies_processBucket_perm (bucket : List CategoryResult)
    (m : String) :
    ∀ tests : List TestEntry,
      (bucket.map (fun r => jsPop r.category)).Nodup →
      (∀ t ∈ tests, (alookup m t.values).isSome = true →
        t.testName ∉ bucket.map (fun r => jsPop r.category)) →
      (modelAccuracies (processBucket tests m bucket) m).Perm
        (modelAccuracies tests m ++ bucket.map (fun r => r.accuracy_mean)) := by
  induction bucket with
  | nil =>
    intro tests _ _
    simp [processBucket]
  | cons r rest ih =>
    intro tests hnd hcond
    rw [List.map_cons, List.nodup_cons] at hnd
    have hstep : processBucket tests m (r :: rest) =
        processBucket (setTestValue tests (jsPop r.category) r.category
          (jsFirstSeg r.category) m r.accuracy_mean) m rest := rfl
    rw [hstep]
    have hno : ∀ t ∈ tests, t.testName = jsPop r.category →
        alookup m t.values = none := by
      intro t ht htn
      by_cases hs : (alookup m t.values).isSome = true
      · exact absurd (by simp [htn]) (hcond t ht hs)
      · exact Option.not_isSome_iff_eq_none.mp hs
    have hsv := modelAccuracies_setTestValue_perm tests (jsPop r.category)
      r.category (jsFirstSeg r.category) m r.accuracy_mean hno
    have hcond2 : ∀ t ∈ setTestValue tests (jsPop r.category) r.category
        (jsFirstSeg r.category) m r.accuracy_mean,
        (alookup m t.values).isSome = true →
          t.testName ∉ rest.map (fun r2 => jsPop r2.category) := by
      refine setTestValue_cond_pres tests _ _ _ _ _ _ ?_ hnd.1
      intro t ht hs
      intro hmem
      exact hcond t ht hs (List.mem_cons_of_mem _ hmem)
    have hih := ih _ hnd.2 hcond2
    refine hih.trans ?_
    refine (List.Perm.append_right (rest.map (fun r2 => r2.accuracy_mean)) hsv).trans ?_
    rw [List.map_cons]
    exact List.perm_middle.symm

theorem modelAccuracies_processBucket_other (bucket : List CategoryResult)
    (m m2 : String) (hm : m2 ≠ m) :
    ∀ tests : List TestEntry,
      modelAccuracies (processBucket tests m bucket) m2 =
        modelAccuracies tests m2 := by
  induction bucket with
  | nil => intro tests; rfl
  | cons r rest ih =>
    intro tests
    have hstep : processBucket tests m (r :: rest) =
        processBucket (setTestValue tests (jsPop r.category) r.category
          (jsFirstSeg r.category) m r.accuracy_mean) m rest := rfl
    rw [hstep, ih, modelAccuracies_setTestValue_other _ _ _ _ _ _ _ hm]

theorem pushGrouped_keys (g : List (String × List CategoryResult))
    (k : String) (r : CategoryResult) :
    (pushGrouped g k r).map Prod.fst =
      if k ∈ g.map Prod.fst then g.map Prod.fst else g.map Prod.fst ++ [k] := by
  induction g with
  | nil => simp [pushGrouped]
  | cons p rest ih =>
    obtain ⟨k1, rs⟩ := p
    unfold pushGrouped
    by_cases h : k1 = k
    · rw [if_pos h]
      simp [h]
    · rw [if_neg h]
      by_cases hm : k ∈ rest.map Prod.fst
      · simp [hm, Ne.symm h, ih]
      · simp [hm, Ne.symm h, ih]

theorem groupByCategory_keys_nodup (results : List CategoryResult) :
    ((groupByCategory results).map Prod.fst).Nodup := by
  unfold groupByCategory
  suffices h : ∀ g0 : List (String × List CategoryResult),
      (g0.map Prod.fst).Nodup →
      ((results.foldl (fun g r => pushGrouped g (categorizeTest r.category) r)
        g0).map Prod.fst).Nodup by
    exact h [] (by simp)
  induction results with
  | nil => intro g0 h; exact h
  | cons r rest ih =>
    intro g0 h
    rw [List.foldl_cons]
    refine ih _ ?_
    rw [pushGrouped_keys]
    by_cases hm : categorizeTest r.category ∈ g0.map Prod.fst
    · rwa [if_pos hm]
    · rw [if_neg hm]
      simp [List.nodup_append, h, hm]

theorem pushGrouped_bucket_pres (Q : CategoryResult → Prop)
    (g : List (String × List CategoryResult)) (k : String) (r : CategoryResult)
    (hg : ∀ p ∈ g, ∀ r2 ∈ p.2, Q r2) (hr : Q r) :
    ∀ p ∈ pushGrouped g k r, ∀ r2 ∈ p.2, Q r2 := by
  induction g with
  | nil =>
    intro p hp r2 hr2
    rcases List.mem_singleton.mp hp with rfl
    rcases List.mem_singleton.mp hr2 with rfl
    exact hr
  | cons q rest ih =>
    intro p hp r2 hr2
    obtain ⟨k1, rs⟩ := q
    unfold pushGrouped at hp
    by_cases h : k1 = k
    · rw [if_pos h] at hp
      rcases List.mem_cons.mp hp with rfl | hp2
      · rcases List.mem_append.mp hr2 with h2 | h2
        · exact hg _ (List.mem_cons_self _ _) r2 h2
        · rcases List.mem_singleton.mp h2 with rfl
          exact hr
      · exact hg _ (List.mem_cons_of_mem _ hp2) r2 hr2
    · rw [if_neg h] at hp
      rcases List.mem_cons.mp hp with rfl | hp2
      · exact hg _ (List.mem_cons_self _ _) r2 hr2
      · exact ih (fun p3 hp3 r3 hr3 => hg p3 (List.mem_cons_of_mem _ hp3) r3 hr3)
          p hp2 r2 hr2

theorem groupByCategory_bucket_pres (Q : CategoryResult → Prop)
    (results : List CategoryResult) (hq : ∀ r ∈ results, Q r) :
    ∀ p ∈ groupByCategory results, ∀ r2 ∈ p.2, Q r2 := by
  unfold groupByCategory
  suffices h : ∀ g0 : List (String × List CategoryResult),
      (∀ p ∈ g0, ∀ r2 ∈ p.2, Q r2) →
      ∀ p ∈ results.foldl (fun g r => pushGrouped g (categorizeTest r.category) r) g0,
        ∀ r2 ∈ p.2, Q r2 by
    exact h [] (by intro p hp; cases hp)
  induction results with
  | nil => intro g0 h; exact h
  | cons r rest ihr =>
    intro g0 h
    rw [List.foldl_cons]
    exact ihr (fun r2 hr2 => hq r2 (List.mem_cons_of_mem _ hr2)) _
      (pushGrouped_bucket_pres Q g0 _ r h (hq r (List.mem_cons_self _ _)))

theorem pushGrouped_bucket_nonempty (g : List (String × List CategoryResult))
    (k : String) (r : CategoryResult)
    (hg : ∀ p ∈ g, p.2 ≠ []) :
    ∀ p ∈ pushGrouped g k r, p.2 ≠ [] := by
  induction g with
  | nil =>
    intro p hp
    rcases List.mem_singleton.mp hp with rfl
    simp
  | cons q rest ih =>
    intro p hp
    obtain ⟨k1, rs⟩ := q
    unfold pushGrouped at hp
    by_cases h : k1 = k
    · rw [if_pos h] at hp
      rcases List.mem_cons.mp hp with rfl | hp2
      · simp
      · exact hg _ (List.mem_cons_of_mem _ hp2)
    · rw [if_neg h] at hp
      rcases List.mem_cons.mp hp with rfl | hp2
      · exact hg _ (List.mem_cons_self _ _)
      · exact ih (fun p3 hp3 => hg p3 (List.mem_cons_of_mem _ hp3)) p hp2

theorem groupByCategory_bucket_nonempty (results : List CategoryResult) :
    ∀ p ∈ groupByCategory results, p.2 ≠ [] := by
  unfold groupByCategory
  suffices h : ∀ g0 : List (String × List CategoryResult),
      (∀ p ∈ g0, p.2 ≠ []) →
      ∀ p ∈ results.foldl (fun g r => pushGrouped g (categorizeTest r.category) r) g0,
        p.2 ≠ [] by
    exact h [] (by intro p hp; cases hp)
  induction results with
  | nil => intro g0 h; exact h
  | cons r rest ihr =>
    intro g0 h
    rw [List.foldl_cons]
    exact ihr _ (pushGrouped_bucket_nonempty g0 _ r h)

theorem mem_of_alookup {α : Type} (l : List (String × α)) (k : String) (v : α)
    (h : alookup k l = some v) : (k, v) ∈ l := by
  induction l with
  | nil => cases h
  | cons p rest ih =>
    obtain ⟨k1, w⟩ := p
    unfold alookup at h
    by_cases hk : k1 = k
    · rw [if_pos hk] at h
      injection h with h2
      rw [← hk, h2]
      exact List.mem_cons_self _ _
    · rw [if_neg hk] at h
      exact List.mem_cons_of_mem _ (ih h)

theorem testsAt_foldGrouped (m : String) (G : List (String × List CategoryResult)) :
    ∀ (cats : List (String × CategoryStats)) (cn : String),
      (G.map Prod.fst).Nodup →
      testsAt (G.foldl (fun cs p => updateCat cs p.1
        (fun stat => { stat with tests := processBucket stat.tests m p.2 })) cats) cn =
      processBucket (testsAt cats cn) m ((alookup cn G).getD []) := by
  induction G with
  | nil => intro cats cn _; rfl
  | cons q G2 ih =>
    intro cats cn hnd
    obtain ⟨k, b⟩ := q
    rw [List.map_cons, List.nodup_cons] at hnd
    rw [List.foldl_cons, ih _ _ hnd.2]
    have hts := testsAt_updateCat_tests cats k cn (fun ts => processBucket ts m b)
    rw [hts]
    by_cases h : cn = k
    · rw [if_pos h]
      have hnone : alookup cn G2 = none :=
        alookup_eq_none_of_not_mem_keys _ _ (h ▸ hnd.1)
      rw [hnone]
      unfold alookup
      rw [if_pos h.symm]
      rfl
    · rw [if_neg h]
      have hcons : alookup cn ((k, b) :: G2) = if k = cn then some b else alookup cn G2 := rfl
      rw [hcons, if_neg (fun hh => h hh.symm)]

theorem testsAt_processSource (cats : List (String × CategoryStats))
    (s : DataSource) (cn : String) :
    testsAt (processSource cats s) cn =
      processBucket (testsAt cats cn) s.modelName (bucketOf s cn) := by
  unfold processSource bucketOf
  exact testsAt_foldGrouped s.modelName _ cats cn (groupByCategory_keys_nodup _)

theorem processSource_keys_mem (cats : List (String × CategoryStats))
    (s : DataSource) :
    ∀ p ∈ processSource cats s, p.1 ∈ cats.map Prod.fst ∨
      p.1 ∈ (groupByCategory (flattenDatasetResults s.rawData)).map Prod.fst := by
  unfold processSource
  generalize groupByCategory (flattenDatasetResults s.rawData) = G
  induction G generalizing cats with
  | nil =>
    intro p hp
    exact Or.inl (List.mem_map_of_mem Prod.fst hp)
  | cons q G2 ih =>
    intro p hp
    rw [List.foldl_cons] at hp
    rcases ih _ p hp with h1 | h1
    · rw [updateCat_keys] at h1
      by_cases hm : q.1 ∈ cats.map Prod.fst
      · rw [if_pos hm] at h1
        exact Or.inl h1
      · rw [if_neg hm] at h1
        rcases List.mem_append.mp h1 with h2 | h2
        · exact Or.inl h2
        · exact Or.inr (by simp [List.mem_singleton.mp h2])
    · exact Or.inr (List.mem_cons_of_mem _ h1)

theorem processSource_keys_nodup (cats : List (String × CategoryStats))
    (s : DataSource) (h : (cats.map Prod.fst).Nodup) :
    ((processSource cats s).map Prod.fst).Nodup := by
  unfold processSource
  generalize groupByCategory (flattenDatasetResults s.rawData) = G
  induction G generalizing cats with
  | nil => exact h
  | cons q G2 ih =>
    rw [List.foldl_cons]
    exact ih _ (updateCat_keys_nodup _ _ _ h)

theorem perModelStep_pos (st : CategoryStats) (source : DataSource)
    (h : (modelAccuracies st.tests source.modelName).length > 0) :
    perModelStep st source =
      { st with
          avgPerModel := mapSet st.avgPerModel source.modelName
            (d3mean (modelAccuracies st.tests source.modelName))
          minPerModel := mapSet st.minPerModel source.modelName
            (d3min (modelAccuracies st.tests source.modelName))
          maxPerModel := mapSet st.maxPerModel source.modelName
            (d3max (modelAccuracies st.tests source.modelName)) } := by
  simp only [perModelStep]
  rw [if_pos h]

theorem perModelStep_neg (st : CategoryStats) (source : DataSource)
    (h : ¬ (modelAccuracies st.tests source.modelName).length > 0) :
    perModelStep st source = st := by
  simp only [perModelStep]
  rw [if_neg h]

theorem updateCat_pres_key (P : String → CategoryStats → Prop)
    (cats : List (String × CategoryStats)) (cn : String)
    (f : CategoryStats → CategoryStats)
    (hf : ∀ k st, P k st → P k (f st)) (hemp : P cn (f (emptyStats cn)))
    (h : ∀ p ∈ cats, P p.1 p.2) :
    ∀ p ∈ updateCat cats cn f, P p.1 p.2 := by
  induction cats with
  | nil =>
    intro p hp
    unfold updateCat at hp
    rcases List.mem_singleton.mp hp with rfl
    exact hemp
  | cons q rest ih =>
    intro p hp
    obtain ⟨k, st⟩ := q
    unfold updateCat at hp
    by_cases hk : k = cn
    · rw [if_pos hk] at hp
      rcases List.mem_cons.mp hp with rfl | hp2
      · exact hf k st (h _ (List.mem_cons_self _ _))
      · exact h p (List.mem_cons_of_mem _ hp2)
    · rw [if_neg hk] at hp
      rcases List.mem_cons.mp hp with rfl | hp2
      · exact h _ (List.mem_cons_self _ _)
      · exact ih (fun r hr => h r (List.mem_cons_of_mem _ hr)) p hp2

theorem processSource_pres_key (P : String → CategoryStats → Prop)
    (hP : ∀ k st tests2, P k st → P k { st with tests := tests2 })
    (hemp : ∀ cn tests2, P cn { emptyStats cn with tests := tests2 })
    (s : DataSource) (cats : List (String × CategoryStats))
    (h : ∀ p ∈ cats, P p.1 p.2) :
    ∀ p ∈ processSource cats s, P p.1 p.2 := by
  unfold processSource
  generalize groupByCategory (flattenDatasetResults s.rawData) = g
  induction g generalizing cats with
  | nil => exact h
  | cons q rest ih =>
    rw [List.foldl_cons]
    exact ih _ (updateCat_pres_key P cats q.1 _
      (fun k st hst => hP k st _ hst) (hemp q.1 _) h)

theorem phase1_pres_key (P : String → CategoryStats → Prop)
    (hP : ∀ k st tests2, P k st → P k { st with tests := tests2 })
    (hemp : ∀ cn tests2, P cn { emptyStats cn with tests := tests2 })
    (sources : List DataSource) :
    ∀ cats, (∀ p ∈ cats, P p.1 p.2) →
      ∀ p ∈ sources.foldl processSource cats, P p.1 p.2 := by
  induction sources with
  | nil => intro cats h; exact h
  | cons s rest ih =>
    intro cats h
    rw [List.foldl_cons]
    exact ih _ (processSource_pres_key P hP hemp s cats h)

theorem phase1_invariant (allS : List DataSource)
    (hnames : (allS.map (fun s => s.modelName)).Nodup)
    (hstems : ∀ s ∈ allS, ∀ p ∈ groupByCategory (flattenDatasetResults s.rawData),
      (p.2.map (fun r => jsPop r.category)).Nodup) :
    ∀ rest : List DataSource, ∀ (processed : List DataSource)
      (cats : List (String × CategoryStats)),
      allS = processed ++ rest →
      (cats.map Prod.fst).Nodup →
      (∀ p ∈ cats, ∃ s, s ∈ processed ∧ bucketOf s p.1 ≠ []) →
      (∀ cn : String, ∀ s ∈ processed,
        (modelAccuracies (testsAt cats cn) s.modelName).Perm
          ((bucketOf s cn).map (fun r => r.accuracy_mean))) →
      (∀ cn m : String, m ∉ processed.map (fun s => s.modelName) →
        modelAccuracies (testsAt cats cn) m = []) →
      (((rest.foldl processSource cats).map Prod.fst).Nodup ∧
       (∀ p ∈ rest.foldl processSource cats, ∃ s, s ∈ allS ∧ bucketOf s p.1 ≠ []) ∧
       (∀ cn : String, ∀ s ∈ allS,
         (modelAccuracies (testsAt (rest.foldl processSource cats) cn) s.modelName).Perm
           ((bucketOf s cn).map (fun r => r.accuracy_mean)))) := by
  intro rest
  induction rest with
  | nil =>
    intro processed cats heq hnd hkeys hperm _
    rw [List.append_nil] at heq
    subst heq
    exact ⟨hnd, hkeys, hperm⟩
  | cons t ts ih =>
    intro processed cats heq hnd hkeys hperm hnone
    rw [List.foldl_cons]
    have htall : t ∈ allS := by
      rw [heq]
      exact List.mem_append.mpr (Or.inr (List.mem_cons_self _ _))
    have hfresh : t.modelName ∉ processed.map (fun s => s.modelName) := by
      intro hmem
      have hn2 := hnames
      rw [heq, List.map_append] at hn2
      exact (List.nodup_append.mp hn2).2.2 hmem
        (by rw [List.map_cons]; exact List.mem_cons_self _ _)
    have heq2 : allS = (processed ++ [t]) ++ ts := by
      rw [heq, List.append_cons]
    have hnd2 := processSource_keys_nodup cats t hnd
    have hkeys2 : ∀ p ∈ processSource cats t,
        ∃ s, s ∈ processed ++ [t] ∧ bucketOf s p.1 ≠ [] := by
      intro p hp
      rcases processSource_keys_mem cats t p hp with h1 | h1
      · obtain ⟨p0, hp0, hfst⟩ := List.mem_map.mp h1
        obtain ⟨s, hs1, hs2⟩ := hkeys p0 hp0
        exact ⟨s, List.mem_append_left _ hs1, hfst ▸ hs2⟩
      · obtain ⟨q, hq, hfst⟩ := List.mem_map.mp h1
        have hb := groupByCategory_bucket_nonempty _ q hq
        have halo : alookup q.1
            (groupByCategory (flattenDatasetResults t.rawData)) = some q.2 :=
          alookup_of_mem_nodup _ _ _ (groupByCategory_keys_nodup _) hq
        refine ⟨t, List.mem_append_right _ (List.mem_singleton_self t), ?_⟩
        unfold bucketOf
        rw [← hfst, halo]
        exact hb
    have hperm2 : ∀ cn : String, ∀ s ∈ processed ++ [t],
        (modelAccuracies (testsAt (processSource cats t) cn) s.modelName).Perm
          ((bucketOf s cn).map (fun r => r.accuracy_mean)) := by
      intro cn s hs
      have hts2 := testsAt_processSource cats t cn
      rcases List.mem_append.mp hs with hsp | hst
      · have hne : s.modelName ≠ t.modelName := by
          intro he
          exact hfresh (he ▸ List.mem_map_of_mem (fun s2 => s2.modelName) hsp)
        rw [hts2, modelAccuracies_processBucket_other _ _ _ hne]
        exact hperm cn s hsp
      · rcases List.mem_singleton.mp hst with rfl
        rw [hts2]
        have hndb : ((bucketOf s cn).map (fun r => jsPop r.category)).Nodup := by
          unfold bucketOf
          cases halo : alookup cn
              (groupByCategory (flattenDatasetResults s.rawData)) with
          | none => exact List.nodup_nil
          | some b =>
            exact hstems s htall (cn, b) (mem_of_alookup _ cn b halo)
        have hzero := hnone cn s.modelName hfresh
        have hall : ∀ te ∈ testsAt cats cn,
            alookup s.modelName te.values = none := by
          intro te hte
          have h2 : (testsAt cats cn).filterMap
              (fun t2 => alookup s.modelName t2.values) = [] := hzero
          exact List.filterMap_eq_nil_iff.mp h2 te hte
        have hcond : ∀ te ∈ testsAt cats cn,
            (alookup s.modelName te.values).isSome = true →
              te.testName ∉ (bucketOf s cn).map (fun r => jsPop r.category) := by
          intro te hte hsome
          rw [hall te hte] at hsome
          cases hsome
        have hpb := modelAccuracies_processBucket_perm (bucketOf s cn)
          s.modelName (testsAt cats cn) hndb hcond
        rw [hzero, List.nil_append] at hpb
        exact hpb
    have hnone2 : ∀ cn m : String,
        m ∉ (processed ++ [t]).map (fun s => s.modelName) →
          modelAccuracies (testsAt (processSource cats t) cn) m = [] := by
      intro cn m hm
      rw [List.map_append] at hm
      have hmA : m ∉ processed.map (fun s => s.modelName) :=
        fun h2 => hm (List.mem_append.mpr (Or.inl h2))
      have hmB : m ≠ t.modelName := by
        intro he
        exact hm (List.mem_append.mpr (Or.inr (by simp [he])))
      rw [testsAt_processSource, modelAccuracies_processBucket_other _ _ _ hmB]
      exact hnone cn m hmA
    exact ih (processed ++ [t]) (processSource cats t) heq2 hnd2 hkeys2 hperm2 hnone2

theorem phase1_final (sources : List DataSource)
    (hnames : (sources.map (fun s => s.modelName)).Nodup)
    (hstems : ∀ s ∈ sources, ∀ p ∈ groupByCategory (flattenDatasetResults s.rawData),
      (p.2.map (fun r => jsPop r.category)).Nodup) :
    (((sources.foldl processSource []).map Prod.fst).Nodup ∧
     (∀ p ∈ sources.foldl processSource [], ∃ s, s ∈ sources ∧ bucketOf s p.1 ≠ []) ∧
     (∀ cn : String, ∀ s ∈ sources,
       (modelAccuracies (testsAt (sources.foldl processSource []) cn) s.modelName).Perm
         ((bucketOf s cn).map (fun r => r.accuracy_mean)))) := by
  refine phase1_invariant sources hnames hstems sources [] [] rfl List.nodup_nil
    ?_ ?_ ?_
  · intro p hp
    cases hp
  · intro cn s hs
    cases hs
  · intro cn m _
    rfl

theorem perModelFold_avg (T : List TestEntry) :
    ∀ (srcs : List DataSource) (acc : CategoryStats),
      acc.tests = T →
      (srcs.map (fun s => s.modelName)).Nodup →
      (∀ s ∈ srcs, s.modelName ∉ acc.avgPerModel.map Prod.fst) →
      ((srcs.foldl perModelStep acc).tests = T ∧
       (srcs.foldl perModelStep acc).name = acc.name ∧
       (srcs.foldl perModelStep acc).avgPerModel =
         acc.avgPerModel ++
           (srcs.filter (fun s =>
             decide ((modelAccuracies T s.modelName).length > 0))).map
             (fun s => (s.modelName, d3mean (modelAccuracies T s.modelName)))) := by
  intro srcs
  induction srcs with
  | nil =>
    intro acc ha _ _
    exact ⟨ha, rfl, by simp⟩
  | cons s ss ih =>
    intro acc ha hnd hk
    rw [List.map_cons, List.nodup_cons] at hnd
    rw [List.foldl_cons]
    by_cases h : (modelAccuracies acc.tests s.modelName).length > 0
    · have hstep := perModelStep_pos acc s h
      have hT2 : (perModelStep acc s).tests = T := by
        rw [hstep]
        exact ha
      have hmfresh : s.modelName ∉ acc.avgPerModel.map Prod.fst :=
        hk s (List.mem_cons_self _ _)
      have hmap : (perModelStep acc s).avgPerModel =
          acc.avgPerModel ++
            [(s.modelName, d3mean (modelAccuracies T s.modelName))] := by
        rw [hstep]
        show mapSet acc.avgPerModel s.modelName
          (d3mean (modelAccuracies acc.tests s.modelName)) = _
        rw [ha]
        exact mapSet_fresh _ _ _ hmfresh
      have hk2 : ∀ s2 ∈ ss,
          s2.modelName ∉ (perModelStep acc s).avgPerModel.map Prod.fst := by
        intro s2 hs2
        rw [hmap, List.map_append]
        intro hmem
        rcases List.mem_append.mp hmem with h2 | h2
        · exact hk s2 (List.mem_cons_of_mem _ hs2) h2
        · have he : s2.modelName = s.modelName := by simpa using h2
          exact hnd.1 (he ▸ List.mem_map_of_mem (fun s3 => s3.modelName) hs2)
      obtain ⟨c1, c2, c3⟩ := ih (perModelStep acc s) hT2 hnd.2 hk2
      have hpred : decide ((modelAccuracies T s.modelName).length > 0) = true := by
        rw [← ha]
        exact decide_eq_true h
      refine ⟨c1, ?_, ?_⟩
      · rw [c2, hstep]
      · rw [c3, hmap, List.append_assoc]
        congr 1
        simp [List.filter_cons, hpred]
    · have hstep := perModelStep_neg acc s h
      rw [hstep]
      obtain ⟨c1, c2, c3⟩ := ih acc ha hnd.2
        (fun s2 hs2 => hk s2 (List.mem_cons_of_mem _ hs2))
      have hpred : decide ((modelAccuracies T s.modelName).length > 0) = false := by
        rw [← ha]
        exact decide_eq_false h
      refine ⟨c1, c2, ?_⟩
      rw [c3]
      congr 1
      simp [List.filter_cons, hpred]

theorem d3mean_perm (xs ys : List JsNum) (h : xs.Perm ys) :
    d3mean xs = d3mean ys := by
  have hp : (xs.filterMap id).Perm (ys.filterMap id) := h.filterMap id
  simp only [d3mean]
  rw [hp.length_eq, hp.sum_eq]

theorem map_eq_map_some {α β : Type} (l : List α) (f : α → Option β)
    (h : ∀ a ∈ l, (f a).isSome = true) :
    l.map f = (l.filterMap f).map some := by
  induction l with
  | nil => rfl
  | cons a rest ih =>
    rcases Option.isSome_iff_exists.mp (h a (List.mem_cons_self _ _)) with ⟨v, hv⟩
    simp only [List.map_cons, List.filterMap_cons, hv]
    rw [ih (fun b hb => h b (List.mem_cons_of_mem _ hb))]

theorem d3mean_records (rs : List CategoryResult) (hne : rs ≠ [])
    (hfin : ∀ r ∈ rs, (r.accuracy_mean).isSome = true) :
    d3mean (rs.map (fun r => r.accuracy_mean)) = some (recordsMean rs) := by
  have hmap := map_eq_map_some rs (fun r => r.accuracy_mean) hfin
  have hlen : (rs.filterMap (fun r => r.accuracy_mean)).length = rs.length := by
    have h2 := congrArg List.length hmap
    rw [List.length_map, List.length_map] at h2
    exact h2.symm
  have hne2 : rs.filterMap (fun r => r.accuracy_mean) ≠ [] := by
    intro hh
    rw [hh] at hlen
    exact hne (List.length_eq_zero.mp hlen.symm)
  rw [hmap, d3mean_map_some _ hne2]
  unfold recordsMean
  rw [hlen]

theorem bucketOf_sub_flatten (s : DataSource) (cn : String) :
    ∀ r ∈ bucketOf s cn, r ∈ flattenDatasetResults s.rawData := by
  unfold bucketOf
  cases halo : alookup cn (groupByCategory (flattenDatasetResults s.rawData)) with
  | none =>
    intro r hr
    exact absurd hr (List.not_mem_nil r)
  | some b =>
    intro r hr
    exact groupByCategory_bucket_pres
      (fun r2 => r2 ∈ flattenDatasetResults s.rawData) _
      (fun r2 h2 => h2) (cn, b) (mem_of_alookup _ cn b halo) r hr

theorem finalizeStat_overallAvg (st : CategoryStats)
    (h : (st.avgPerModel.map (fun p => p.2)).length > 0) :
    (finalizeStat st).overallAvg = d3mean (st.avgPerModel.map (fun p => p.2)) ∧
    (finalizeStat st).name = st.name := by
  simp only [finalizeStat]
  rw [if_pos h]
  exact ⟨rfl, rfl⟩

/-- C1 (amended): for a source list with pairwise-distinct model names,
per-source per-category distinct base test names, and finite (non-NaN)
record accuracies, every aggregator category entry has `overallAvg` equal
to the arithmetic mean of the per-source average accuracies over that
category's contributing sources — one average per contributing source,
each computed over that source's own records in the category — not the
flat mean over all raw records. -/
theorem categoryStats_overallAvg_source_balanced (sources : List DataSource)
    (hnames : (sources.map (fun s => s.modelName)).Nodup)
    (hstems : ∀ s ∈ sources,
      ∀ p ∈ groupByCategory (flattenDatasetResults s.rawData),
        (p.2.map (fun r => jsPop r.category)).Nodup)
    (hfin : ∀ s ∈ sources, ∀ r ∈ flattenDatasetResults s.rawData,
      (r.accuracy_mean).isSome = true) :
    ∀ stat ∈ categoryStats sources,
      stat.overallAvg = some (sourceBalancedAvg sources stat.name) := by
  intro stat hstat
  unfold categoryStats at hstat
  rcases List.mem_map.mp hstat with ⟨p, hp, rfl⟩
  obtain ⟨hnd, hkeys, hperm⟩ := phase1_final sources hnames hstems
  have hnk : p.2.name = p.1 ∧ p.2.avgPerModel = [] :=
    phase1_pres_key (fun k st => st.name = k ∧ st.avgPerModel = [])
      (fun k st ts2 hpk => hpk)
      (fun cn ts2 => ⟨rfl, rfl⟩)
      sources [] (by intro q hq; cases hq) p hp
  have halo : alookup p.1 (sources.foldl processSource []) = some p.2 :=
    alookup_of_mem_nodup _ _ _ hnd hp
  have htests : testsAt (sources.foldl processSource []) p.1 = p.2.tests := by
    unfold testsAt
    rw [halo]
  have hkfresh : ∀ s ∈ sources, s.modelName ∉
      ({ p.2 with testCount := p.2.tests.length } : CategoryStats).avgPerModel.map
        Prod.fst := by
    intro s _
    show s.modelName ∉ p.2.avgPerModel.map Prod.fst
    rw [hnk.2]
    intro hmem
    cases hmem
  obtain ⟨hT, hN, hAvg⟩ := perModelFold_avg p.2.tests sources
    { p.2 with testCount := p.2.tests.length } rfl hnames hkfresh
  have hAvg2 : (computePerModel sources p.2).avgPerModel =
      (sources.filter (fun s =>
        decide ((modelAccuracies p.2.tests s.modelName).length > 0))).map
        (fun s => (s.modelName, d3mean (modelAccuracies p.2.tests s.modelName))) := by
    show (sources.foldl perModelStep
      { p.2 with testCount := p.2.tests.length }).avgPerModel = _
    rw [hAvg]
    show p.2.avgPerModel ++ _ = _
    rw [hnk.2, List.nil_append]
  have hfilter : sources.filter (fun s =>
      decide ((modelAccuracies p.2.tests s.modelName).length > 0)) =
      contributingSources sources p.1 := by
    unfold contributingSources
    apply List.filter_congr
    intro s hs
    show decide ((modelAccuracies p.2.tests s.modelName).length > 0) =
      !(bucketOf s p.1).isEmpty
    have hp2 := hperm p.1 s hs
    rw [htests] at hp2
    have hlen : (modelAccuracies p.2.tests s.modelName).length =
        (bucketOf s p.1).length := by
      rw [hp2.length_eq, List.length_map]
    rw [hlen]
    cases bucketOf s p.1 <;> simp
  have hmeans : ∀ s ∈ contributingSources sources p.1,
      d3mean (modelAccuracies p.2.tests s.modelName) =
        some (recordsMean (bucketOf s p.1)) := by
    intro s hs
    have hs2 : s ∈ sources.filter (fun s3 => !(bucketOf s3 p.1).isEmpty) := hs
    obtain ⟨hsrc, hf3⟩ := List.mem_filter.mp hs2
    have hf4 : (!(bucketOf s p.1).isEmpty) = true := hf3
    have hbne : bucketOf s p.1 ≠ [] := by
      intro hh
      rw [hh] at hf4
      simp at hf4
    have hp2 := hperm p.1 s hsrc
    rw [htests] at hp2
    rw [d3mean_perm _ _ hp2]
    exact d3mean_records (bucketOf s p.1) hbne
      (fun r hr => hfin s hsrc r (bucketOf_sub_flatten s p.1 r hr))
  have hsnd : (computePerModel sources p.2).avgPerModel.map (fun q => q.2) =
      ((contributingSources sources p.1).map
        (fun s => recordsMean (bucketOf s p.1))).map some := by
    rw [hAvg2, hfilter, List.map_map, List.map_map]
    apply List.map_congr_left
    intro s hs
    show d3mean (modelAccuracies p.2.tests s.modelName) =
      some (recordsMean (bucketOf s p.1))
    exact hmeans s hs
  have hcne : contributingSources sources p.1 ≠ [] := by
    obtain ⟨s, hsrc, hbne⟩ := hkeys p hp
    intro hh
    have hmem : s ∈ contributingSources sources p.1 := by
      unfold contributingSources
      apply List.mem_filter.mpr
      refine ⟨hsrc, ?_⟩
      show (!(bucketOf s p.1).isEmpty) = true
      cases hb2 : bucketOf s p.1 with
      | nil => exact absurd hb2 hbne
      | cons a l => rfl
    rw [hh] at hmem
    cases hmem
  have hlenpos : ((computePerModel sources p.2).avgPerModel.map
      (fun q => q.2)).length > 0 := by
    rw [hsnd, List.length_map, List.length_map]
    exact List.length_pos.mpr hcne
  obtain ⟨hOA, hNm⟩ := finalizeStat_overallAvg (computePerModel sources p.2) hlenpos
  have hN2 : (computePerModel sources p.2).name =
      ({ p.2 with testCount := p.2.tests.length } : CategoryStats).name := hN
  have hname : (finalizeStat (computePerModel sources p.2)).name = p.1 := by
    rw [hNm, hN2]
    exact hnk.1
  have hvne : (contributingSources sources p.1).map
      (fun s => recordsMean (bucketOf s p.1)) ≠ [] := by
    intro hh
    exact hcne (List.map_eq_nil_iff.mp hh)
  rw [hname, hOA, hsnd, d3mean_map_some _ hvne]
  simp only [sourceBalancedAvg]
  rw [List.length_map]

/-- Witness for C1 (amended) at two concrete sources with distinct model
names, distinct base test names, and finite accuracies. -/
theorem categoryStats_overallAvg_source_balanced_witness :
    ((categoryStats [aggWitA, aggWitB]).headD (emptyStats "")).overallAvg =
      some (sourceBalancedAvg [aggWitA, aggWitB]
        ((categoryStats [aggWitA, aggWitB]).headD (emptyStats "")).name) :=
  categoryStats_overallAvg_source_balanced [aggWitA, aggWitB]
    (by decide) (by decide) (by decide)
    ((categoryStats [aggWitA, aggWitB]).headD (emptyStats ""))
    (headD_mem _ _ (by
      intro h
      have h2 : (categoryStats [aggWitA, aggWitB]).length = 0 := by
        rw [h]
        rfl
      rw [show (categoryStats [aggWitA, aggWitB]).length = 1 from rfl] at h2
      exact Nat.one_ne_zero h2))

/-- Counterexample to C1 as stated: a single source with two records in
one subject category sharing the base test name `algebra`; the aggregator
pools tests by base name, so the second record overwrites the first and
`overallAvg` is 1/2, while the mean of the per-source record averages is
7/10. -/
theorem categoryStats_overallAvg_claim_cex :
    ∃ stat ∈ categoryStats [aggCexSource],
      stat.overallAvg ≠ some (sourceBalancedAvg [aggCexSource] stat.name) := by
  refine ⟨(categoryStats [aggCexSource]).headD (emptyStats ""),
    headD_mem _ _ ?_, ?_⟩
  · intro h
    have h2 : (categoryStats [aggCexSource]).length = 0 := by
      rw [h]
      rfl
    rw [show (categoryStats [aggCexSource]).length = 1 from rfl] at h2
    exact Nat.one_ne_zero h2
  · have hname : ((categoryStats [aggCexSource]).headD (emptyStats "")).name =
        "Mathematics" := rfl
    have hspine : ((categoryStats [aggCexSource]).headD (emptyStats "")).overallAvg =
        d3mean [d3mean [some (1/2 : ℚ)]] := rfl
    have hd1 : d3mean [some (1/2 : ℚ)] = some (1/2 : ℚ) := by
      simp [d3mean]
    have hd2 : d3mean [d3mean [some (1/2 : ℚ)]] = some (1/2 : ℚ) := by
      rw [hd1]
      exact hd1
    have hov : ((categoryStats [aggCexSource]).headD (emptyStats "")).overallAvg =
        some (1/2 : ℚ) := hspine.trans hd2
    have h1 : sourceBalancedAvg [aggCexSource] "Mathematics" =
        (recordsMean (bucketOf aggCexSource "Mathematics") + 0) / ((1 : ℕ) : ℚ) := rfl
    have h2 : recordsMean (bucketOf aggCexSource "Mathematics") = 7/10 := by
      have h3 : recordsMean (bucketOf aggCexSource "Mathematics") =
          ((9/10 : ℚ) + ((1/2 : ℚ) + 0)) / ((2 : ℕ) : ℚ) := rfl
      rw [h3]
      norm_num
    have hsb : sourceBalancedAvg [aggCexSource] "Mathematics" = 7/10 := by
      rw [h1, h2]
      norm_num
    rw [hname, hov, hsb]
    intro hh
    have h4 := Option.some.inj hh
    norm_num at h4
